import Mathlib

/-!
# Verification of the yash job-control core (`src/job.c`)

This file gives a shallow embedding of the job-control module of the yash
shell and proves the specification's claims about it.  The job table
(`plist_T` of nullable `job_T` slots, slot 0 reserved for the active job),
the designation registers `current_jobnumber` / `previous_jobnumber`, the
reaper `do_wait`, the status-derivation functions and the status printer
are all translated from `src/job.c`.  External collaborators that are not
part of the source file (the `plist` growable list, the platform's `wait.h`
status macros, `gettext`, `get_signal_name`) are modelled explicitly where
the claims need them; each such definition says so in its doc comment.
-/

/-- Per-process / per-job state, `jobstatus_T` from `job.h`. -/
inductive jobstatus_T : Type
  | JS_RUNNING
  | JS_STOPPED
  | JS_DONE
deriving DecidableEq

export jobstatus_T (JS_RUNNING JS_STOPPED JS_DONE)

/-- `process_T`: one child process of a pipeline.  `pr_pid = 0` denotes a
process that was never forked, whose `pr_statuscode` is a plain exit code
rather than a `waitpid` status word. -/
structure process_T : Type where
  pr_pid : Int
  pr_status : jobstatus_T
  pr_statuscode : Int
  pr_name : String
deriving DecidableEq

/-- `job_T`: a pipeline.  `j_procs` corresponds to the C flexible array
`j_procs[]` together with `j_pcount` (its length). -/
structure job_T : Type where
  j_status : jobstatus_T
  j_statuschanged : Bool
  j_loop : Bool
  j_procs : List process_T
deriving DecidableEq

/-- Modelled from the spec: the general-purpose growable pointer list
`plist_T` (from `plist.c`, an external collaborator of the job module).
`contents` is the used part of the array (`length` in C is
`contents.length`); `maxlength` is the allocated capacity. -/
structure plist_T : Type where
  contents : List (Option job_T)
  maxlength : Nat
deriving DecidableEq

/-- Reading slot `n` of the slot array: the pointer stored there, or
`none` when `n` is out of range.  This is the bounds-checked access that
`get_job` performs; an empty in-range slot and an out-of-range index both
read as `none`, exactly as both read as `NULL` in the C code. -/
def get_slot : List (Option job_T) → Nat → Option job_T
  | [], _ => none
  | x :: _, 0 => x
  | _ :: xs, n + 1 => get_slot xs n

/-- Replace element `n` of a list by `f` of it (out of range: no change). -/
def modify_nth (f : α → α) : Nat → List α → List α
  | _, [] => []
  | 0, x :: xs => f x :: xs
  | n + 1, x :: xs => x :: modify_nth f n xs

/-- One past the index of the last non-`none` slot; `0` when every slot is
`none`.  This is the quantity the scan at the top of `trim_joblist`
computes (the C scan yields `max 1` of this value). -/
def live_tail : List (Option job_T) → Nat
  | [] => 0
  | x :: xs =>
      let t := live_tail xs
      if t = 0 then (if x.isSome then 1 else 0) else t + 1

/- ## The `waitpid` status-word macros

Modelled from the platform's `<sys/wait.h>` (glibc encoding): the job
module treats the status word as opaque and interprets it only through
these macros. -/

/-- Modelled from the spec: `WTERMSIG(s) = s & 0x7f`. -/
def WTERMSIG (s : Int) : Int := s % 128

/-- Modelled from the spec: `WIFEXITED(s)` holds when the low seven bits
are zero. -/
def WIFEXITED (s : Int) : Bool := s % 128 = 0

/-- Modelled from the spec: `WIFSIGNALED(s)` holds when the low seven bits
are a real signal number (1..126; 127 marks a stopped process). -/
def WIFSIGNALED (s : Int) : Bool := 0 < s % 128 ∧ s % 128 < 127

/-- Modelled from the spec: `WEXITSTATUS(s) = (s >> 8) & 0xff`. -/
def WEXITSTATUS (s : Int) : Int := s / 256 % 256

/-- Modelled from the spec: `WIFSTOPPED(s)` holds when the low byte is
`0x7f`. -/
def WIFSTOPPED (s : Int) : Bool := s % 256 = 127

/-- Modelled from the spec: `WSTOPSIG(s) = (s >> 8) & 0xff`. -/
def WSTOPSIG (s : Int) : Int := s / 256 % 256

/-- Modelled from the spec: `WIFCONTINUED(s)` holds for the dedicated
word `0xffff`. -/
def WIFCONTINUED (s : Int) : Bool := s = 65535

/-- Modelled from the spec: `WCOREDUMP(s) = s & 0x80`, the core-dump flag
of a status word of a signalled process. -/
def WCOREDUMP (s : Int) : Bool := s % 256 / 128 = 1

/-- Status word of a process that exited normally with code `c` (`c` in
0..255): `c << 8`. -/
def mkExited (c : Int) : Int := 256 * c

/-- Status word of a process terminated by signal `g` (`g` in 1..126),
with the core-dump flag `core`. -/
def mkSignaled (g : Int) (core : Bool) : Int := g + (if core then 128 else 0)

/-- Status word of a process stopped by signal `g` (`g` in 0..255):
`(g << 8) | 0x7f`. -/
def mkStopped (g : Int) : Int := 256 * g + 127

/-- Status word of a continued process. -/
def mkContinued : Int := 65535

/-- Modelled from the spec: `TERMSIGOFFSET`, the fixed offset added to a
signal number to form a shell exit status (conventionally 128). -/
def TERMSIGOFFSET : Int := 128

/-- `EXIT_SUCCESS`. -/
def EXIT_SUCCESS : Int := 0

/-- `ACTIVE_JOBNO`: the reserved slot of the active job. -/
def ACTIVE_JOBNO : Nat := 0

/-- Modelled from the spec: `PJS_ALL` (from `job.h`, not under `src/`),
the "print all jobs" sentinel, distinct from every valid job number
(`SIZE_MAX` on the reference platform). -/
def PJS_ALL : Nat := 18446744073709551615

/- ## The plist operations the job module uses

Modelled from the spec ("general-purpose growable lists" are an external
collaborator): only the behaviour the job module relies on. -/

/-- Modelled from the spec: `pl_init` creates an empty list (the initial
capacity is irrelevant to the job module). -/
def pl_init : plist_T := { contents := [], maxlength := 0 }

/-- Modelled from the spec: `pl_add` appends one element, growing the
capacity when needed (the exact growth policy is irrelevant to the job
module). -/
def pl_add (p : plist_T) (x : Option job_T) : plist_T :=
  { contents := p.contents ++ [x],
    maxlength := max p.maxlength (p.contents.length + 1) }

/-- Modelled from the spec: `pl_setmax p newmax` sets the capacity to
`newmax`, truncating the list when it is longer than `newmax`. -/
def pl_setmax (p : plist_T) (newmax : Nat) : plist_T :=
  { contents := p.contents.take newmax, maxlength := newmax }

/-- Modelled from the spec: `pl_remove p i SIZE_MAX` removes every element
from index `i` on; the capacity is unchanged. -/
def pl_remove_from (p : plist_T) (i : Nat) : plist_T :=
  { p with contents := p.contents.take i }

/- ## The job-module state and its operations, from `src/job.c` -/

/-- The module's static state: the `initialized` flag local to `init_job`,
the job list and the two designation registers. -/
structure JobState : Type where
  initialized : Bool
  joblist : plist_T
  current_jobnumber : Nat
  previous_jobnumber : Nat
deriving DecidableEq

/-- The state at program start: C statics are zero-initialized. -/
def boot_state : JobState :=
  { initialized := false, joblist := pl_init,
    current_jobnumber := 0, previous_jobnumber := 0 }

/-- `init_job`: initializes the job list once; later calls do nothing. -/
def init_job (s : JobState) : JobState :=
  if s.initialized then s
  else { s with initialized := true, joblist := pl_add pl_init none }

/-- `get_job`: the job of the given number, or `none` if not found. -/
def get_job (s : JobState) (jobnumber : Nat) : Option job_T :=
  get_slot s.joblist.contents jobnumber

/-- `set_active_job`: installs a job into slot `ACTIVE_JOBNO`.  The C
code asserts that the slot is empty; callers are required to respect
that precondition. -/
def set_active_job (job : job_T) (s : JobState) : JobState :=
  { s with joblist :=
      { s.joblist with
        contents := s.joblist.contents.set ACTIVE_JOBNO (some job) } }

/-- The test `job != NULL && p job` applied to the contents of a slot. -/
def slot_test (p : job_T → Bool) : Option job_T → Bool
  | some job => p job
  | none => false

/-- The scan of `find_next_job`, one loop of `job.c:201`: test job
numbers `j, j-1, ..., 1`, returning the first number that differs from
`excl` and whose slot holds a job satisfying `p`; `0` when none does. -/
def find_down (l : List (Option job_T)) (excl : Nat) (p : job_T → Bool) :
    Nat → Nat
  | 0 => 0
  | j + 1 =>
      if j + 1 ≠ excl ∧ slot_test p (get_slot l (j + 1))
      then j + 1
      else find_down l excl p j

/-- `find_next_job`: an arbitrary job number other than `excl`, suitable
for the next current/previous job; stopped jobs are preferred, then
larger numbers; `0` if there is none. -/
def find_next_job (l : List (Option job_T)) (excl : Nat) : Nat :=
  let r := find_down l excl (fun job => job.j_status = JS_STOPPED)
             (l.length - 1)
  if r ≠ 0 then r
  else find_down l excl (fun _ => true) (l.length - 1)

/-- `set_current_jobnumber`: makes `jobnumber` the current job and
rotates/repairs the previous job, `job.c:179`.  The C code asserts
`jobnumber == 0 ∨ get_job jobnumber ≠ none`. -/
def set_current_jobnumber (jobnumber : Nat) (s : JobState) : JobState :=
  let previous := s.current_jobnumber
  let jn :=
    if jobnumber = 0 then
      if previous = 0 ∨ get_job s previous = none
      then find_next_job s.joblist.contents 0
      else previous
    else jobnumber
  let previous2 :=
    if previous = 0 ∨ previous = jn
    then find_next_job s.joblist.contents jn
    else previous
  { s with current_jobnumber := jn, previous_jobnumber := previous2 }

/-- The scan of `add_job` (`job.c:92`) from index `i` on: the first index
holding `none`, if any. -/
def find_empty_from : List (Option job_T) → Nat → Option Nat
  | [], _ => none
  | x :: xs, i => if x = none then some i else find_empty_from xs (i + 1)

/-- The first empty slot at index ≥ 1, as scanned by `add_job`. -/
def first_empty_slot (l : List (Option job_T)) : Option Nat :=
  match l with
  | [] => none
  | _ :: xs => find_empty_from xs 1

/-- `add_job`: moves the active job into the job list — into the lowest
empty slot at index ≥ 1, or appended at the end — then updates the
designations.  The C code asserts that the active slot is non-empty; on
a violation the model leaves the state unchanged. -/
def add_job (current : Bool) (s : JobState) : JobState :=
  match get_slot s.joblist.contents ACTIVE_JOBNO with
  | none => s
  | some job =>
      let l := s.joblist.contents.set ACTIVE_JOBNO none
      match first_empty_slot l with
      | some i =>
          let s2 := { s with joblist :=
                        { s.joblist with contents := l.set i (some job) } }
          if current ∨ s.current_jobnumber = 0 then
            set_current_jobnumber i s2
          else if s.previous_jobnumber = 0 then
            { s2 with previous_jobnumber := i }
          else s2
      | none =>
          let s2 := { s with joblist := pl_add { s.joblist with contents := l }
                                          (some job) }
          let i := s2.joblist.contents.length - 1
          if current ∨ s.current_jobnumber = 0 then
            set_current_jobnumber i s2
          else if s.previous_jobnumber = 0 then
            { s2 with previous_jobnumber := i }
          else s2

/-- `trim_joblist`: removes the unused tail of the job list; when the
list is sparse (capacity over 20 and more than twice the length) the
capacity is compacted to the live tail instead. -/
def trim_joblist (p : plist_T) : plist_T :=
  let tail := max 1 (live_tail p.contents)
  if p.maxlength > 20 ∧ p.maxlength / 2 > p.contents.length
  then pl_setmax p tail
  else pl_remove_from p tail

/-- `remove_job`: frees the job of the given number, trims the list and
repairs the designation registers. -/
def remove_job (jobnumber : Nat) (s : JobState) : JobState :=
  let jl := trim_joblist
              { s.joblist with
                contents := s.joblist.contents.set jobnumber none }
  if jobnumber = s.current_jobnumber then
    { s with joblist := jl,
             current_jobnumber := s.previous_jobnumber,
             previous_jobnumber :=
               find_next_job jl.contents s.previous_jobnumber }
  else if jobnumber = s.previous_jobnumber then
    { s with joblist := jl,
             previous_jobnumber :=
               find_next_job jl.contents s.current_jobnumber }
  else { s with joblist := jl }

/-- The loop of `remove_all_jobs`, re-reading `joblist.length` at every
iteration (removal can shrink it).  The fuel argument only bounds the
iteration count; it is always called with enough fuel, since the length
never grows and `i` increases. -/
def remove_all_loop : Nat → Nat → JobState → JobState
  | 0, _, s => s
  | fuel + 1, i, s =>
      if i < s.joblist.contents.length
      then remove_all_loop fuel (i + 1) (remove_job i s)
      else s

/-- `remove_all_jobs`: removes all jobs unconditionally. -/
def remove_all_jobs (s : JobState) : JobState :=
  let s2 := remove_all_loop s.joblist.contents.length 0 s
  { s2 with joblist := trim_joblist s2.joblist,
            current_jobnumber := 0, previous_jobnumber := 0 }

/-- `job_count`: the number of non-empty slots (slot 0 included). -/
def job_count (s : JobState) : Nat :=
  s.joblist.contents.countP (fun o => o.isSome)

/-- `stopped_job_count`: the number of stopped jobs. -/
def stopped_job_count (s : JobState) : Nat :=
  s.joblist.contents.countP
    (fun o => match o with
              | some job => job.j_status = JS_STOPPED
              | none => false)

/- ## The reaper, `do_wait` (`job.c:247`)

The OS interaction (`waitpid` with `WUNTRACED | WCONTINUED | WNOHANG`,
with the `EINTR`-retry, `ECHILD`-quiescence and `EINVAL`-self-healing
error paths) is the boundary of the model: a call to `do_wait` consumes
the list of `(pid, status)` deliveries the OS has available, in order. -/

/-- The pid scan of `do_wait` (`job.c:291`): the first
`(jobnumber, pnumber)` — jobs scanned by increasing slot index, slot 0
included, processes in pipeline order — whose process has pid `pid`. -/
def find_pid (pid : Int) : List (Option job_T) → Option (Nat × Nat)
  | [] => none
  | none :: rest => (find_pid pid rest).map (fun jk => (jk.1 + 1, jk.2))
  | some job :: rest =>
      match job.j_procs.findIdx? (fun p => p.pr_pid == pid) with
      | some k => some (0, k)
      | none => (find_pid pid rest).map (fun jk => (jk.1 + 1, jk.2))

/-- `job.c:301`: store the raw status word into the process and map it to
the per-process state (exited/signalled → done, stopped → stopped,
continued → running; otherwise the state is left as it was). -/
def update_proc_status (status : Int) (p : process_T) : process_T :=
  let p2 := { p with pr_statuscode := status }
  if WIFEXITED status ∨ WIFSIGNALED status then { p2 with pr_status := JS_DONE }
  else if WIFSTOPPED status then { p2 with pr_status := JS_STOPPED }
  else if WIFCONTINUED status then { p2 with pr_status := JS_RUNNING }
  else p2

/-- `job.c:312`: the job status decided from the process statuses —
running if any process is running, else stopped if any is stopped, else
done.  (The C loop breaks out at the first running process; the value of
its partially-computed `anystopped` is then unused, so the early exit is
semantics-preserving.) -/
def job_status_of_procs (ps : List process_T) : jobstatus_T :=
  if ps.any (fun p => p.pr_status = JS_RUNNING) then JS_RUNNING
  else if ps.any (fun p => p.pr_status = JS_STOPPED) then JS_STOPPED
  else JS_DONE

/-- Processing of one `(pid, status)` delivery by `do_wait`: find the
process (deliveries for unknown pids are ignored — the job may have been
disowned), update it, recompute the enclosing job's status and set the
job's changed flag if the status changed. -/
def do_wait_step (ev : Int × Int) (s : JobState) : JobState :=
  match find_pid ev.1 s.joblist.contents with
  | none => s
  | some jk =>
      match get_slot s.joblist.contents jk.1 with
      | none => s
      | some job =>
          let procs2 := modify_nth (update_proc_status ev.2) jk.2 job.j_procs
          let newstatus := job_status_of_procs procs2
          let job2 : job_T :=
            { j_status := newstatus,
              j_statuschanged :=
                if newstatus ≠ job.j_status then true else job.j_statuschanged,
              j_loop := job.j_loop,
              j_procs := procs2 }
          { s with joblist :=
              { s.joblist with
                contents := s.joblist.contents.set jk.1 (some job2) } }

/-- `do_wait`: non-blocking drain — consume every available delivery. -/
def do_wait (evs : List (Int × Int)) (s : JobState) : JobState :=
  evs.foldl (fun s ev => do_wait_step ev s) s

/- ## Status derivation (`job.c:355`) -/

/-- `calc_status`: the exit status decoded from a `waitpid` status word.
The fall-through `assert(false)` of the C function (a status word in
none of the four classes) is modelled as `none`. -/
def calc_status (status : Int) : Option Int :=
  if WIFEXITED status then some (WEXITSTATUS status)
  else if WIFSIGNALED status then some (WTERMSIG status + TERMSIGOFFSET)
  else if WIFSTOPPED status then some (WSTOPSIG status + TERMSIGOFFSET)
  else if WIFCONTINUED status then some 0
  else none

/-- `calc_status_of_job`: the exit status of a done or stopped job.  The
C function's `assert(false)` paths (a running job, a stopped job without
a stopped process) and the out-of-bounds read on an empty pipeline are
modelled as `none`.  The C scan of the stopped case walks the processes
from the tail toward the head, which is the first hit of `reverse.find?`. -/
def calc_status_of_job (job : job_T) : Option Int :=
  match job.j_status with
  | JS_DONE =>
      match job.j_procs.getLast? with
      | none => none
      | some tp =>
          if tp.pr_pid ≠ 0 then calc_status tp.pr_statuscode
          else some tp.pr_statuscode
  | JS_STOPPED =>
      match job.j_procs.reverse.find? (fun p => p.pr_status = JS_STOPPED) with
      | some p => calc_status p.pr_statuscode
      | none => none
  | JS_RUNNING => none

/-- `get_job_name`: the single process's name, or the names joined with
" | ", prefixed with "| " for a loop pipeline. -/
def get_job_name (job : job_T) : String :=
  match job.j_procs with
  | [p] => p.pr_name
  | ps =>
      (if job.j_loop then "| " else "") ++
        String.intercalate " | " (ps.map (fun p => p.pr_name))

/- ## The status formatter (`job.c:416`)

`gt` (gettext) is the identity — the reference strings are used;
`get_signal_name` is an external lookup and is passed in as `sigName`. -/

/-- `get_process_status_string`: the status text of one process, together
with the `*needfree` flag.  The `assert(WIFSIGNALED(status))` failure (a
done process, real pid, status word neither an exit nor a signal) is
modelled as `none`.  Note the C code overwrites `status` with
`WTERMSIG(status)` before testing `WCOREDUMP(status)`: the core-dump test
is applied to the extracted signal number, not to the raw status word. -/
def get_process_status_string (sigName : Int → String) (p : process_T) :
    Option (String × Bool) :=
  match p.pr_status with
  | JS_RUNNING => some ("Running", false)
  | JS_STOPPED =>
      some ("Stopped(SIG" ++ sigName (WSTOPSIG p.pr_statuscode) ++ ")", true)
  | JS_DONE =>
      if p.pr_pid = 0 then
        if p.pr_statuscode = EXIT_SUCCESS then some ("Done", false)
        else some ("Done(" ++ toString p.pr_statuscode ++ ")", true)
      else if WIFEXITED p.pr_statuscode then
        let status := WEXITSTATUS p.pr_statuscode
        if status = EXIT_SUCCESS then some ("Done", false)
        else some ("Done(" ++ toString status ++ ")", true)
      else if WIFSIGNALED p.pr_statuscode then
        let status := WTERMSIG p.pr_statuscode
        if WCOREDUMP status then
          some ("Killed (SIG" ++ sigName status ++ ": core dumped)", true)
        else some ("Killed (SIG" ++ sigName status ++ ")", true)
      else none

/-- `get_job_status_string`: the status text of a job — for a stopped job
that of the tail-most stopped process, for a done job that of the tail
process.  The unreachable `assert(false)` paths, and the C loop's
unbounded decrement on a stopped job without a stopped process, are
modelled as `none`. -/
def get_job_status_string (sigName : Int → String) (job : job_T) :
    Option (String × Bool) :=
  match job.j_status with
  | JS_RUNNING => some ("Running", false)
  | JS_STOPPED =>
      match job.j_procs.reverse.find? (fun p => p.pr_status = JS_STOPPED) with
      | some p => get_process_status_string sigName p
      | none => none
  | JS_DONE =>
      match job.j_procs.getLast? with
      | some p => get_process_status_string sigName p
      | none => none

/-- `%-20s`: left-justified, blank-padded to at least 20 characters. -/
def pad20 (s : String) : String :=
  s ++ String.mk (List.replicate (20 - s.length) (' '))

/-- `%5jd`: right-justified, blank-padded to at least 5 characters. -/
def pad5 (s : String) : String :=
  String.mk (List.replicate (5 - s.length) (' ')) ++ s

/-- The continuation line of the verbose format,
`"      %5jd %-20s | %ls\n"` (the status is suppressed when
`posixly_correct`). -/
def verbose_proc_line (posixly_correct : Bool) (sigName : Int → String)
    (p : process_T) : Option String :=
  (get_process_status_string sigName p).map
    (fun st => "      " ++ pad5 (toString p.pr_pid) ++ " " ++
               pad20 (if posixly_correct then "" else st.1) ++ " | " ++
               p.pr_name)

/-- The current-job marker: `+` for the current job, `-` for the
previous job, a space otherwise. -/
def job_marker (jobnumber : Nat) (s : JobState) : String :=
  if jobnumber = s.current_jobnumber then "+"
  else if jobnumber = s.previous_jobnumber then "-"
  else " "

/-- The lines `print_job_status` emits for one job: the job-wise line,
or — verbose — one line per process (`job.c:506`). -/
def job_status_lines (jobnumber : Nat) (verbose posixly_correct : Bool)
    (sigName : Int → String) (s : JobState) (job : job_T) :
    Option (List String) :=
  if verbose then
    match job.j_procs with
    | [] => none
    | p0 :: rest =>
        match get_process_status_string sigName p0,
              rest.mapM (verbose_proc_line posixly_correct sigName) with
        | some st, some restlines =>
            some (("[" ++ toString jobnumber ++ "] " ++
                   job_marker jobnumber s ++ " " ++
                   pad5 (toString p0.pr_pid) ++ " " ++ pad20 st.1 ++
                   " " ++ (if job.j_loop then "|" else " ") ++ " " ++
                   p0.pr_name) :: restlines)
        | _, _ => none
  else
    (get_job_status_string sigName job).map
      (fun st => ["[" ++ toString jobnumber ++ "] " ++
                  job_marker jobnumber s ++ " " ++ pad20 st.1 ++
                  " " ++ get_job_name job])

/-- The body of `print_job_status` for one job number (`job.c:497`):
nothing is printed for a missing job, or — with `changedonly` — for a
job whose status has not changed; otherwise the job- or process-wise
lines are emitted, the changed flag is cleared, and a finished job is
removed.  The result is the new state and the lines written to `f`;
`none` models the assertion failures of the status-string helpers. -/
def print_job_status_one (jobnumber : Nat) (changedonly verbose : Bool)
    (posixly_correct : Bool) (sigName : Int → String) (s : JobState) :
    Option (JobState × List String) :=
  match get_job s jobnumber with
  | none => some (s, [])
  | some job =>
      if changedonly ∧ ¬job.j_statuschanged then some (s, [])
      else
        match job_status_lines jobnumber verbose posixly_correct sigName s
                job with
        | none => none
        | some out =>
            let s2 := { s with joblist :=
                          { s.joblist with
                            contents := s.joblist.contents.set jobnumber
                              (some { job with j_statuschanged := false }) } }
            if job.j_status = JS_DONE then some (remove_job jobnumber s2, out)
            else some (s2, out)

/-- The `PJS_ALL` loop of `print_job_status`, re-reading
`joblist.length` each iteration (printing a done job removes it and can
shrink the list).  The fuel only bounds the iteration count and is
always sufficient, since the length never grows and `i` increases. -/
def print_all_loop (changedonly verbose posixly_correct : Bool)
    (sigName : Int → String) : Nat → Nat → JobState →
    Option (JobState × List String)
  | 0, _, s => some (s, [])
  | fuel + 1, i, s =>
      if i < s.joblist.contents.length then
        match print_job_status_one i changedonly verbose posixly_correct
                sigName s with
        | none => none
        | some (s2, out) =>
            (print_all_loop changedonly verbose posixly_correct sigName
               fuel (i + 1) s2).map
              (fun r => (r.1, out ++ r.2))
      else some (s, [])

/-- `print_job_status`: prints one job, or — for the sentinel `PJS_ALL` —
every numbered job in slot order. -/
def print_job_status (jobnumber : Nat) (changedonly verbose : Bool)
    (posixly_correct : Bool) (sigName : Int → String) (s : JobState) :
    Option (JobState × List String) :=
  if jobnumber = PJS_ALL then
    print_all_loop changedonly verbose posixly_correct sigName
      s.joblist.contents.length 1 s
  else
    print_job_status_one jobnumber changedonly verbose posixly_correct
      sigName s

/- ## Reachable states

The states visible to the shell: the boot state after `init_job`,
transformed by any sequence of the exposed operations.  Steps carry the
C preconditions (the assertions at `job.c:77` and `job.c:88`, and for
`remove_job` the callers' guarantee that the slot index is in range). -/

/-- One exposed operation applied to the module state. -/
inductive JobStep : JobState → JobState → Prop
  | install_active (s : JobState) (job : job_T)
      (h : get_slot s.joblist.contents ACTIVE_JOBNO = none) :
      JobStep s (set_active_job job s)
  | promote (s : JobState) (current : Bool)
      (h : get_slot s.joblist.contents ACTIVE_JOBNO ≠ none) :
      JobStep s (add_job current s)
  | remove (s : JobState) (n : Nat) (h : n < s.joblist.contents.length) :
      JobStep s (remove_job n s)
  | remove_all (s : JobState) : JobStep s (remove_all_jobs s)
  | wait (s : JobState) (evs : List (Int × Int)) : JobStep s (do_wait evs s)
  | print (s : JobState) (n : Nat) (changedonly verbose posixly_correct : Bool)
      (sigName : Int → String) (s2 : JobState) (out : List String)
      (h : print_job_status n changedonly verbose posixly_correct sigName s =
           some (s2, out)) :
      JobStep s s2

/-- The states reachable through the exposed operations. -/
inductive ReachableJobState : JobState → Prop
  | init : ReachableJobState (init_job boot_state)
  | step (s s2 : JobState) (hr : ReachableJobState s) (hs : JobStep s s2) :
      ReachableJobState s2

/- ## Derived notions used by the stated properties -/

/-- Every live job's cached aggregate state agrees with the value
recomputed from its processes by the precedence rule. -/
def ConsistentJobs (s : JobState) : Prop :=
  ∀ n job, get_slot s.joblist.contents n = some job →
    job.j_status = job_status_of_procs job.j_procs

/-- The number of live numbered jobs (slots at index ≥ 1). -/
def numbered_job_count (s : JobState) : Nat :=
  (s.joblist.contents.drop 1).countP (fun o => o.isSome)

/-- Slot `k` holds a stopped job. -/
def slot_stopped (l : List (Option job_T)) (k : Nat) : Prop :=
  ∃ job, get_slot l k = some job ∧ job.j_status = JS_STOPPED

/-- The designation invariant of the job table, in the strengthened,
inductive form: a non-zero register names a live slot, and the two
registers coincide only when both are zero. -/
def DesignationInv (s : JobState) : Prop :=
  (s.current_jobnumber ≠ 0 →
     get_slot s.joblist.contents s.current_jobnumber ≠ none) ∧
  (s.previous_jobnumber ≠ 0 →
     get_slot s.joblist.contents s.previous_jobnumber ≠ none) ∧
  (s.current_jobnumber = s.previous_jobnumber → s.current_jobnumber = 0)

/- ## Concrete data used by the evaluation lemmas -/

/-- A concrete process record. -/
def mk_proc (pid : Int) (st : jobstatus_T) (code : Int) (nm : String) :
    process_T :=
  { pr_pid := pid, pr_status := st, pr_statuscode := code, pr_name := nm }

/-- A concrete one-process running job. -/
def demo_job : job_T :=
  { j_status := JS_RUNNING, j_statuschanged := false, j_loop := false,
    j_procs := [mk_proc 100 JS_RUNNING 0 "cmd"] }

/-- A concrete signal-name lookup standing in for the external
`get_signal_name`. -/
def demo_signame (g : Int) : String :=
  if g = 6 then "ABRT" else if g = 20 then "TSTP" else "UNK"

/-- A concrete state: one running job, number 1, being the current job. -/
def demo_state1 : JobState :=
  { initialized := true,
    joblist := { contents := [none, some demo_job], maxlength := 2 },
    current_jobnumber := 1, previous_jobnumber := 0 }

/-- A concrete state with the active job installed in slot 0. -/
def demo_active_state : JobState :=
  { initialized := true,
    joblist := { contents := [some demo_job], maxlength := 1 },
    current_jobnumber := 0, previous_jobnumber := 0 }

/-- A concrete second running job. -/
def demo_job2 : job_T :=
  { j_status := JS_RUNNING, j_statuschanged := false, j_loop := false,
    j_procs := [mk_proc 200 JS_RUNNING 0 "two"] }

/-- A concrete state with two numbered jobs, current 2, previous 1. -/
def demo_state2 : JobState :=
  { initialized := true,
    joblist := { contents := [none, some demo_job, some demo_job2],
                 maxlength := 3 },
    current_jobnumber := 2, previous_jobnumber := 1 }

/-- A concrete finished job whose status change is still unreported. -/
def demo_done_job : job_T :=
  { j_status := JS_DONE, j_statuschanged := true, j_loop := false,
    j_procs := [mk_proc 100 JS_DONE (mkExited 0) "cmd"] }

/-- A concrete state holding `demo_done_job` as job 1. -/
def demo_done_state : JobState :=
  { initialized := true,
    joblist := { contents := [none, some demo_done_job], maxlength := 2 },
    current_jobnumber := 1, previous_jobnumber := 0 }

/-- The state `print_job_status 1` produces from `demo_done_state`. -/
def demo_after_print : JobState :=
  { initialized := true,
    joblist := { contents := [none], maxlength := 2 },
    current_jobnumber := 0, previous_jobnumber := 0 }

/-- A concrete sparse-capacity state: capacity 44, jobs 1 through 21. -/
def demo_state44 : JobState :=
  { initialized := true,
    joblist := { contents := none :: List.replicate 21 (some demo_job),
                 maxlength := 44 },
    current_jobnumber := 0, previous_jobnumber := 0 }

/-- A concrete job killed by signal 3 (no core dump). -/
def demo_killed_job : job_T :=
  { j_status := JS_DONE, j_statuschanged := false, j_loop := false,
    j_procs := [mk_proc 7 JS_DONE (mkSignaled 3 false) "x"] }

/- # Helper lemmas -/

theorem get_slot_nil (n : Nat) : get_slot [] n = none := by
  cases n <;> rfl

theorem get_slot_cons_succ (x : Option job_T) (xs : List (Option job_T))
    (n : Nat) : get_slot (x :: xs) (n + 1) = get_slot xs n := rfl

theorem get_slot_none_of_le (l : List (Option job_T)) (n : Nat)
    (h : l.length ≤ n) : get_slot l n = none := by
  induction l generalizing n with
  | nil => exact get_slot_nil n
  | cons x xs ih =>
      cases n with
      | zero => simp at h
      | succ m => exact ih m (by simpa using h)

theorem get_slot_some_lt (l : List (Option job_T)) (n : Nat) (j : job_T)
    (h : get_slot l n = some j) : n < l.length := by
  by_contra hge
  rw [get_slot_none_of_le l n (by omega)] at h
  exact Option.noConfusion h

theorem get_slot_ne_none_lt (l : List (Option job_T)) (n : Nat)
    (h : get_slot l n ≠ none) : n < l.length := by
  by_contra hge
  exact h (get_slot_none_of_le l n (by omega))

theorem get_slot_set_self (l : List (Option job_T)) (n : Nat)
    (x : Option job_T) (h : n < l.length) : get_slot (l.set n x) n = x := by
  induction l generalizing n with
  | nil => simp at h
  | cons y ys ih =>
      cases n with
      | zero => rfl
      | succ m => exact ih m (by simpa using h)

theorem get_slot_set_ne (l : List (Option job_T)) (n k : Nat)
    (x : Option job_T) (h : k ≠ n) : get_slot (l.set n x) k = get_slot l k := by
  induction l generalizing n k with
  | nil => simp [List.set]
  | cons y ys ih =>
      cases n with
      | zero =>
          cases k with
          | zero => exact absurd rfl h
          | succ m => rfl
      | succ m =>
          cases k with
          | zero => rfl
          | succ k2 => exact ih m k2 (by omega)

theorem get_slot_set_none (l : List (Option job_T)) (n k : Nat) :
    get_slot (l.set n none) k = if k = n then none else get_slot l k := by
  by_cases hk : k = n
  · subst hk
    simp only [if_pos rfl]
    by_cases hlt : k < l.length
    · exact get_slot_set_self l k none hlt
    · exact get_slot_none_of_le _ k (by rw [List.length_set]; omega)
  · rw [if_neg hk]
    exact get_slot_set_ne l n k none hk

theorem get_slot_append_self (l : List (Option job_T)) (x : Option job_T) :
    get_slot (l ++ [x]) l.length = x := by
  induction l with
  | nil => rfl
  | cons y ys ih => simpa using ih

theorem get_slot_append_ne (l : List (Option job_T)) (x : Option job_T)
    (k : Nat) (h : k ≠ l.length) : get_slot (l ++ [x]) k = get_slot l k := by
  induction l generalizing k with
  | nil =>
      cases k with
      | zero => exact absurd rfl h
      | succ m => simp [get_slot, get_slot_nil]
  | cons y ys ih =>
      cases k with
      | zero => rfl
      | succ m => exact ih m (by simpa using h)

theorem get_slot_take (l : List (Option job_T)) (t k : Nat) :
    get_slot (l.take t) k = if k < t then get_slot l k else none := by
  induction l generalizing t k with
  | nil => simp [get_slot_nil]
  | cons y ys ih =>
      cases t with
      | zero => simp [get_slot_nil]
      | succ t2 =>
          cases k with
          | zero => simp [get_slot]
          | succ k2 => simpa [get_slot] using ih t2 k2

theorem live_tail_le (l : List (Option job_T)) : live_tail l ≤ l.length := by
  induction l with
  | nil => simp [live_tail]
  | cons x xs ih =>
      simp only [live_tail, List.length_cons]
      split
      · split <;> omega
      · omega

theorem get_slot_none_of_live_tail_le (l : List (Option job_T)) (k : Nat)
    (h : live_tail l ≤ k) : get_slot l k = none := by
  induction l generalizing k with
  | nil => exact get_slot_nil k
  | cons x xs ih =>
      simp only [live_tail] at h
      split at h
      · next ht =>
          split at h
          · next hx => cases k with
              | zero => omega
              | succ m => exact ih m (by omega)
          · next hx =>
              cases k with
              | zero =>
                  cases hx2 : x with
                  | none => rfl
                  | some j => rw [hx2] at hx; simp at hx
              | succ m => exact ih m (by omega)
      · cases k with
        | zero => omega
        | succ m => exact ih m (by omega)

theorem get_slot_live_tail_pred (l : List (Option job_T)) (t : Nat)
    (h : live_tail l = t + 1) : get_slot l t ≠ none := by
  induction l generalizing t with
  | nil => simp [live_tail] at h
  | cons x xs ih =>
      simp only [live_tail] at h
      split at h
      · next ht =>
          split at h
          · next hx =>
              cases t with
              | zero =>
                  intro hc
                  simp only [get_slot] at hc
                  rw [hc] at hx
                  simp at hx
              | succ m => omega
          · omega
      · next ht =>
          cases t with
          | zero => omega
          | succ m =>
              have : live_tail xs = m + 1 := by omega
              exact ih m this

/-- `trim_joblist` does not change what any slot reads as: the removed
tail is entirely `none`, and out-of-range reads are `none` as well. -/
theorem get_slot_trim (p : plist_T) (k : Nat) :
    get_slot (trim_joblist p).contents k = get_slot p.contents k := by
  have htail : ∀ k2, max 1 (live_tail p.contents) ≤ k2 →
      get_slot p.contents k2 = none := fun k2 h =>
    get_slot_none_of_live_tail_le p.contents k2 (by omega)
  unfold trim_joblist
  split
  · simp only [pl_setmax]
    rw [get_slot_take]
    split
    · rfl
    · next h => exact (htail k (by omega)).symm
  · simp only [pl_remove_from]
    rw [get_slot_take]
    split
    · rfl
    · next h => exact (htail k (by omega)).symm

theorem trim_contents (p : plist_T) :
    (trim_joblist p).contents =
      p.contents.take (max 1 (live_tail p.contents)) := by
  unfold trim_joblist
  split <;> rfl

theorem trim_length (p : plist_T) (h : 1 ≤ p.contents.length) :
    (trim_joblist p).contents.length = max 1 (live_tail p.contents) := by
  rw [trim_contents, List.length_take]
  have := live_tail_le p.contents
  omega

theorem trim_maxlength (p : plist_T) :
    (trim_joblist p).maxlength =
      if 20 < p.maxlength ∧ p.contents.length < p.maxlength / 2
      then max 1 (live_tail p.contents) else p.maxlength := by
  by_cases h : 20 < p.maxlength ∧ p.contents.length < p.maxlength / 2
  · rw [if_pos h]
    simp only [trim_joblist]
    rw [if_pos (show p.maxlength > 20 ∧ p.maxlength / 2 > p.contents.length
                from ⟨h.1, h.2⟩)]
    rfl
  · rw [if_neg h]
    simp only [trim_joblist]
    rw [if_neg (show ¬(p.maxlength > 20 ∧ p.maxlength / 2 > p.contents.length)
                from fun hc => h ⟨hc.1, hc.2⟩)]
    rfl

/-- After trimming, either only the reserved slot remains or the last
slot is live. -/
theorem trim_no_trailing_empties (p : plist_T) (h : 1 ≤ p.contents.length) :
    (trim_joblist p).contents.length = 1 ∨
      get_slot (trim_joblist p).contents
        ((trim_joblist p).contents.length - 1) ≠ none := by
  rw [trim_length p h]
  cases hlt : live_tail p.contents with
  | zero => left; simp [hlt]
  | succ t =>
      right
      rw [get_slot_trim]
      have hmax : max 1 (t + 1) - 1 = t := by omega
      rw [hmax]
      exact get_slot_live_tail_pred p.contents t hlt

/-- The slot reads of `remove_job`: slot `n` reads `none`, every other
slot is unchanged. -/
theorem get_slot_remove_job (s : JobState) (n k : Nat) :
    get_slot (remove_job n s).joblist.contents k =
      if k = n then none else get_slot s.joblist.contents k := by
  have hjl : (remove_job n s).joblist =
      trim_joblist
        { s.joblist with contents := s.joblist.contents.set n none } := by
    unfold remove_job
    split
    · rfl
    · split <;> rfl
  rw [hjl, get_slot_trim]
  exact get_slot_set_none s.joblist.contents n k

theorem find_empty_from_none (xs : List (Option job_T)) (i : Nat)
    (h : find_empty_from xs i = none) :
    ∀ k, k < xs.length → get_slot xs k ≠ none := by
  induction xs generalizing i with
  | nil => intro k hk; simp at hk
  | cons x ys ih =>
      intro k hk
      simp only [find_empty_from] at h
      split at h
      · exact Option.noConfusion h
      · next hx =>
          cases k with
          | zero => simpa [get_slot] using hx
          | succ m => exact ih (i + 1) h m (by simpa using hk)

theorem find_empty_from_some (xs : List (Option job_T)) (i r : Nat)
    (h : find_empty_from xs i = some r) :
    i ≤ r ∧ r - i < xs.length ∧ get_slot xs (r - i) = none ∧
      ∀ k, k < r - i → get_slot xs k ≠ none := by
  induction xs generalizing i with
  | nil => simp [find_empty_from] at h
  | cons x ys ih =>
      simp only [find_empty_from] at h
      split at h
      · next hx =>
          have hr : i = r := Option.some.inj h
          subst hr
          refine ⟨le_refl i, by simp, ?_, fun k hk => absurd hk (by omega)⟩
          have : i - i = 0 := by omega
          rw [this]
          simpa [get_slot] using hx
      · next hx =>
          obtain ⟨h1, h2, h3, h4⟩ := ih (i + 1) h
          refine ⟨by omega, by simp; omega, ?_, ?_⟩
          · have : r - i = (r - (i + 1)) + 1 := by omega
            rw [this, get_slot_cons_succ]
            exact h3
          · intro k hk
            cases k with
            | zero => simpa [get_slot] using hx
            | succ m =>
                rw [get_slot_cons_succ]
                exact h4 m (by omega)

/-- `first_empty_slot` finds the lowest empty slot at index ≥ 1. -/
theorem first_empty_slot_some (l : List (Option job_T)) (i : Nat)
    (h : first_empty_slot l = some i) :
    1 ≤ i ∧ i < l.length ∧ get_slot l i = none ∧
      ∀ k, 1 ≤ k → k < i → get_slot l k ≠ none := by
  match l with
  | [] => simp [first_empty_slot] at h
  | x :: xs =>
      simp only [first_empty_slot] at h
      obtain ⟨h1, h2, h3, h4⟩ := find_empty_from_some xs 1 i h
      refine ⟨h1, by simp; omega, ?_, ?_⟩
      · have : i = (i - 1) + 1 := by omega
        rw [this, get_slot_cons_succ]
        exact h3
      · intro k hk1 hk2
        have : k = (k - 1) + 1 := by omega
        rw [this, get_slot_cons_succ]
        exact h4 (k - 1) (by omega)

theorem slot_test_true_ne_none (p : job_T → Bool) (o : Option job_T)
    (h : slot_test p o = true) : o ≠ none := by
  cases o with
  | none => simp [slot_test] at h
  | some job => exact fun hc => Option.noConfusion hc

theorem slot_test_none (p : job_T → Bool) : slot_test p none = false := rfl

/-- The scan invariant of one `find_next_job` loop: scanning `j, ..., 1`,
the result is `0` exactly when no tested slot passes, and otherwise it is
the highest index ≤ `j`, different from `excl`, whose slot passes. -/
theorem find_down_spec (l : List (Option job_T)) (excl : Nat)
    (p : job_T → Bool) (j : Nat) :
    (find_down l excl p j = 0 →
       ∀ k, 1 ≤ k → k ≤ j → k ≠ excl → slot_test p (get_slot l k) = false) ∧
    (find_down l excl p j ≠ 0 →
       1 ≤ find_down l excl p j ∧ find_down l excl p j ≤ j ∧
       find_down l excl p j ≠ excl ∧
       slot_test p (get_slot l (find_down l excl p j)) = true ∧
       ∀ k, find_down l excl p j < k → k ≤ j → k ≠ excl →
         slot_test p (get_slot l k) = false) := by
  induction j with
  | zero =>
      exact ⟨fun _ k hk1 hk2 _ => absurd hk1 (by omega),
             fun h => absurd rfl h⟩
  | succ j ih =>
      simp only [find_down]
      split
      · next hcond =>
          refine ⟨fun h0 => absurd h0 (by omega), fun _ => ?_⟩
          exact ⟨by omega, le_refl _, hcond.1, hcond.2,
                 fun k hk1 hk2 _ => absurd hk1 (by omega)⟩
      · next hcond =>
          have htop : j + 1 ≠ excl → slot_test p (get_slot l (j + 1)) = false := by
            intro he
            by_cases hs : slot_test p (get_slot l (j + 1)) = true
            · exact absurd ⟨he, hs⟩ hcond
            · simpa using hs
          constructor
          · intro h0 k hk1 hk2 hke
            by_cases hk : k = j + 1
            · subst hk
              exact htop hke
            · exact ih.1 h0 k hk1 (by omega) hke
          · intro hne
            obtain ⟨a1, a2, a3, a4, a5⟩ := ih.2 hne
            refine ⟨a1, by omega, a3, a4, ?_⟩
            intro k hk1 hk2 hke
            by_cases hk : k = j + 1
            · subst hk
              exact htop hke
            · exact a5 k hk1 (by omega) hke

/-- `find_next_job` yields `0` or a live number different from the
excluded one. -/
theorem find_next_job_zero_or_live (l : List (Option job_T)) (excl : Nat) :
    find_next_job l excl = 0 ∨
      (find_next_job l excl ≠ 0 ∧ find_next_job l excl ≠ excl ∧
       get_slot l (find_next_job l excl) ≠ none) := by
  simp only [find_next_job]
  split
  · next hr =>
      obtain ⟨_, _, a3, a4, _⟩ :=
        (find_down_spec l excl (fun job => job.j_status = JS_STOPPED)
          (l.length - 1)).2 hr
      exact Or.inr ⟨hr, a3, slot_test_true_ne_none _ _ a4⟩
  · by_cases hr2 : find_down l excl (fun _ => true) (l.length - 1) = 0
    · exact Or.inl hr2
    · obtain ⟨_, _, a3, a4, _⟩ :=
        (find_down_spec l excl (fun _ => true) (l.length - 1)).2 hr2
      exact Or.inr ⟨hr2, a3, slot_test_true_ne_none _ _ a4⟩

/-- When `first_empty_slot` finds nothing, every numbered slot is
occupied. -/
theorem first_empty_slot_none (l : List (Option job_T))
    (h : first_empty_slot l = none) :
    ∀ k, 1 ≤ k → k < l.length → get_slot l k ≠ none := by
  match l with
  | [] => intro k hk1 hk2; simp at hk2
  | x :: xs =>
      simp only [first_empty_slot] at h
      intro k hk1 hk2
      have : k = (k - 1) + 1 := by omega
      rw [this, get_slot_cons_succ]
      exact find_empty_from_none xs 1 h (k - 1) (by simp at hk2; omega)

/- ## Lemmas about the reaper -/

theorem do_wait_step_designations (ev : Int × Int) (s : JobState) :
    (do_wait_step ev s).current_jobnumber = s.current_jobnumber ∧
    (do_wait_step ev s).previous_jobnumber = s.previous_jobnumber := by
  cases hf : find_pid ev.1 s.joblist.contents with
  | none => simp [do_wait_step, hf]
  | some jk =>
      cases hg : get_slot s.joblist.contents jk.1 with
      | none => simp [do_wait_step, hf, hg]
      | some job => simp [do_wait_step, hf, hg]

/-- One delivery keeps every live job's cached aggregate state equal to
the recomputed value. -/
theorem do_wait_step_consistent (ev : Int × Int) (s : JobState)
    (h : ConsistentJobs s) : ConsistentJobs (do_wait_step ev s) := by
  cases hf : find_pid ev.1 s.joblist.contents with
  | none => simpa [do_wait_step, hf] using h
  | some jk =>
      cases hg : get_slot s.joblist.contents jk.1 with
      | none => simpa [do_wait_step, hf, hg] using h
      | some job =>
          intro n j2 hj2
          simp only [do_wait_step, hf, hg] at hj2
          by_cases hn : n = jk.1
          · subst hn
            rw [get_slot_set_self _ _ _ (get_slot_some_lt _ _ _ hg)] at hj2
            cases Option.some.inj hj2
            rfl
          · rw [get_slot_set_ne _ _ _ _ hn] at hj2
            exact h n j2 hj2

/-- One delivery touches at most one slot, never clears a slot, sets the
changed flag when it changes the cached state, and never clears the
changed flag. -/
theorem do_wait_step_flow (ev : Int × Int) (s : JobState) (n : Nat)
    (job : job_T) (h : get_slot s.joblist.contents n = some job) :
    ∃ job2, get_slot (do_wait_step ev s).joblist.contents n = some job2 ∧
      (job2.j_status ≠ job.j_status → job2.j_statuschanged = true) ∧
      (job.j_statuschanged = true → job2.j_statuschanged = true) := by
  cases hf : find_pid ev.1 s.joblist.contents with
  | none => exact ⟨job, by simpa [do_wait_step, hf] using h, fun hc => absurd rfl hc, id⟩
  | some jk =>
      cases hg : get_slot s.joblist.contents jk.1 with
      | none => exact ⟨job, by simpa [do_wait_step, hf, hg] using h,
                       fun hc => absurd rfl hc, id⟩
      | some job0 =>
          by_cases hn : n = jk.1
          · subst hn
            have hj : job0 = job := Option.some.inj (hg.symm.trans h)
            subst hj
            simp only [do_wait_step, hf, hg]
            refine ⟨_, get_slot_set_self _ _ _ (get_slot_some_lt _ _ _ hg),
                    ?_, ?_⟩
            · intro hne
              simp only at hne ⊢
              split
              · rfl
              · next hsame => exact absurd (by simpa using hsame) hne
            · intro hch
              simp only
              split
              · rfl
              · exact hch
          · refine ⟨job, ?_, fun hc => absurd rfl hc, id⟩
            simp only [do_wait_step, hf, hg]
            rw [get_slot_set_ne _ _ _ _ hn]
            exact h

theorem do_wait_cons (ev : Int × Int) (evs : List (Int × Int))
    (s : JobState) : do_wait (ev :: evs) s = do_wait evs (do_wait_step ev s) :=
  rfl

theorem do_wait_designations (evs : List (Int × Int)) (s : JobState) :
    (do_wait evs s).current_jobnumber = s.current_jobnumber ∧
    (do_wait evs s).previous_jobnumber = s.previous_jobnumber := by
  induction evs generalizing s with
  | nil => exact ⟨rfl, rfl⟩
  | cons ev evs ih =>
      rw [do_wait_cons]
      obtain ⟨h1, h2⟩ := ih (do_wait_step ev s)
      obtain ⟨g1, g2⟩ := do_wait_step_designations ev s
      exact ⟨h1.trans g1, h2.trans g2⟩

theorem do_wait_consistent (evs : List (Int × Int)) (s : JobState)
    (h : ConsistentJobs s) : ConsistentJobs (do_wait evs s) := by
  induction evs generalizing s with
  | nil => exact h
  | cons ev evs ih => exact ih _ (do_wait_step_consistent ev s h)

theorem do_wait_flow (evs : List (Int × Int)) (s : JobState) (n : Nat)
    (job : job_T) (h : get_slot s.joblist.contents n = some job) :
    ∃ job2, get_slot (do_wait evs s).joblist.contents n = some job2 ∧
      (job2.j_status ≠ job.j_status → job2.j_statuschanged = true) ∧
      (job.j_statuschanged = true → job2.j_statuschanged = true) := by
  induction evs generalizing s job with
  | nil => exact ⟨job, h, fun hc => absurd rfl hc, id⟩
  | cons ev evs ih =>
      obtain ⟨job1, h1, f1, g1⟩ := do_wait_step_flow ev s n job h
      obtain ⟨job2, h2, f2, g2⟩ := ih (do_wait_step ev s) job1 h1
      refine ⟨job2, by rwa [do_wait_cons], ?_, fun hc => g2 (g1 hc)⟩
      intro hne
      by_cases hmid : job2.j_status = job1.j_status
      · exact g2 (f1 (fun hc => hne (hmid.trans hc)))
      · exact f2 hmid

/- ## Lemmas about the designation registers -/

theorem set_current_fields (n : Nat) (s : JobState) (hn : n ≠ 0) :
    (set_current_jobnumber n s).current_jobnumber = n ∧
    (set_current_jobnumber n s).joblist = s.joblist ∧
    (set_current_jobnumber n s).initialized = s.initialized := by
  simp [set_current_jobnumber, hn]

/-- `set_current_jobnumber`, called with a live nonzero number on a state
whose current job is live, establishes the designation invariant. -/
theorem set_current_inv (n : Nat) (s : JobState) (hn : n ≠ 0)
    (hlive : get_slot s.joblist.contents n ≠ none)
    (hold : s.current_jobnumber ≠ 0 →
            get_slot s.joblist.contents s.current_jobnumber ≠ none) :
    DesignationInv (set_current_jobnumber n s) := by
  obtain ⟨hc, hj, _⟩ := set_current_fields n s hn
  by_cases hp : s.current_jobnumber = 0 ∨ s.current_jobnumber = n
  · have hprev : (set_current_jobnumber n s).previous_jobnumber =
        find_next_job s.joblist.contents n := by
      simp [set_current_jobnumber, hn, hp]
    refine ⟨?_, ?_, ?_⟩
    · rw [hc, hj]
      exact fun _ => hlive
    · rw [hprev, hj]
      rcases find_next_job_zero_or_live s.joblist.contents n with h0 | hl
      · rw [h0]
        exact fun hne => absurd rfl hne
      · exact fun _ => hl.2.2
    · rw [hc, hprev]
      intro heq
      rcases find_next_job_zero_or_live s.joblist.contents n with h0 | hl
      · rw [h0] at heq
        exact heq
      · exact absurd heq.symm hl.2.1
  · push_neg at hp
    have hprev : (set_current_jobnumber n s).previous_jobnumber =
        s.current_jobnumber := by
      simp [set_current_jobnumber, hn, hp.1, hp.2]
    refine ⟨?_, ?_, ?_⟩
    · rw [hc, hj]
      exact fun _ => hlive
    · rw [hprev, hj]
      exact fun _ => hold hp.1
    · rw [hc, hprev]
      exact fun heq => absurd heq.symm hp.2

/-- Full case analysis of `add_job`: the active job moves to the lowest
index ≥ 1 whose slot reads empty (appending exactly when that index is
the old length), other slots are untouched, and the designations are
updated by the three-way policy. -/
theorem add_job_cases (cur : Bool) (s : JobState) (job : job_T)
    (h0 : get_slot s.joblist.contents ACTIVE_JOBNO = some job) :
    ∃ i, 1 ≤ i ∧
      get_slot s.joblist.contents i = none ∧
      (∀ k, 1 ≤ k → k < i → get_slot s.joblist.contents k ≠ none) ∧
      ((i < s.joblist.contents.length ∧
          (add_job cur s).joblist.contents.length =
            s.joblist.contents.length) ∨
       (i = s.joblist.contents.length ∧
          (add_job cur s).joblist.contents.length = i + 1)) ∧
      get_slot (add_job cur s).joblist.contents i = some job ∧
      get_slot (add_job cur s).joblist.contents ACTIVE_JOBNO = none ∧
      (∀ k, k ≠ ACTIVE_JOBNO → k ≠ i →
         get_slot (add_job cur s).joblist.contents k =
           get_slot s.joblist.contents k) ∧
      ((cur = true ∨ s.current_jobnumber = 0) →
         (add_job cur s).current_jobnumber = i) ∧
      ((cur = false ∧ s.current_jobnumber ≠ 0 ∧ s.previous_jobnumber = 0) →
         (add_job cur s).current_jobnumber = s.current_jobnumber ∧
         (add_job cur s).previous_jobnumber = i) ∧
      ((cur = false ∧ s.current_jobnumber ≠ 0 ∧ s.previous_jobnumber ≠ 0) →
         (add_job cur s).current_jobnumber = s.current_jobnumber ∧
         (add_job cur s).previous_jobnumber = s.previous_jobnumber) := by
  have hlen0 : 0 < s.joblist.contents.length := get_slot_some_lt _ _ _ h0
  have hset0 : ∀ k, 1 ≤ k →
      get_slot (s.joblist.contents.set ACTIVE_JOBNO none) k =
        get_slot s.joblist.contents k := by
    intro k hk
    exact get_slot_set_ne _ _ _ _ (by simp [ACTIVE_JOBNO]; omega)
  cases hfe : first_empty_slot (s.joblist.contents.set ACTIVE_JOBNO none) with
  | some i =>
      obtain ⟨hi1, hi2, hi3, hi4⟩ := first_empty_slot_some _ i hfe
      rw [List.length_set] at hi2
      have hadd : add_job cur s =
          (let s2 : JobState :=
             { s with joblist :=
                 { s.joblist with
                   contents := (s.joblist.contents.set ACTIVE_JOBNO none).set i
                     (some job) } }
           if cur ∨ s.current_jobnumber = 0 then set_current_jobnumber i s2
           else if s.previous_jobnumber = 0 then
             { s2 with previous_jobnumber := i }
           else s2) := by
        simp only [add_job, h0, hfe]
      have hjl : (add_job cur s).joblist =
          { s.joblist with
            contents := (s.joblist.contents.set ACTIVE_JOBNO none).set i
              (some job) } := by
        rw [hadd]
        simp only []
        split
        · next hcond =>
            exact (set_current_fields i _ (by omega)).2.1
        · split <;> rfl
      have hslot : ∀ k, get_slot (add_job cur s).joblist.contents k =
          get_slot ((s.joblist.contents.set ACTIVE_JOBNO none).set i
            (some job)) k := by
        intro k
        rw [hjl]
      refine ⟨i, hi1, ?_, ?_, ?_, ?_, ?_, ?_, ?_, ?_, ?_⟩
      · rw [← hset0 i hi1]
        exact hi3
      · intro k hk1 hk2
        rw [← hset0 k hk1]
        exact hi4 k hk1 hk2
      · left
        constructor
        · exact hi2
        · rw [hjl]
          simp
      · rw [hslot i]
        exact get_slot_set_self _ _ _ (by rw [List.length_set]; exact hi2)
      · rw [hslot ACTIVE_JOBNO]
        rw [get_slot_set_ne _ _ _ _ (by simp [ACTIVE_JOBNO]; omega)]
        rw [get_slot_set_none]
        simp [ACTIVE_JOBNO]
      · intro k hk0 hki
        rw [hslot k]
        rw [get_slot_set_ne _ _ _ _ hki]
        exact hset0 k (by simp [ACTIVE_JOBNO] at hk0; omega)
      · intro hcond
        have hcond2 : (cur = true) ∨ s.current_jobnumber = 0 := hcond
        rw [hadd]
        simp only []
        rw [if_pos (by simpa using hcond2)]
        exact (set_current_fields i _ (by omega)).1
      · rintro ⟨hcur, hc0, hp0⟩
        rw [hadd]
        simp only []
        rw [if_neg (by simp [hcur, hc0]), if_pos hp0]
        exact ⟨rfl, rfl⟩
      · rintro ⟨hcur, hc0, hp0⟩
        rw [hadd]
        simp only []
        rw [if_neg (by simp [hcur, hc0]), if_neg hp0]
        exact ⟨rfl, rfl⟩
  | none =>
      have hocc := first_empty_slot_none _ hfe
      rw [List.length_set] at hocc
      have hadd : add_job cur s =
          (let jl2 : plist_T :=
             pl_add ⟨s.joblist.contents.set ACTIVE_JOBNO none,
                     s.joblist.maxlength⟩ (some job)
           let s2 : JobState := { s with joblist := jl2 }
           let i := s2.joblist.contents.length - 1
           if cur ∨ s.current_jobnumber = 0 then set_current_jobnumber i s2
           else if s.previous_jobnumber = 0 then
             { s2 with previous_jobnumber := i }
           else s2) := by
        simp only [add_job, h0, hfe]
      have hlen : ((s.joblist.contents.set ACTIVE_JOBNO none) ++
          [some job]).length = s.joblist.contents.length + 1 := by
        simp
      have hjl : (add_job cur s).joblist =
          { contents := (s.joblist.contents.set ACTIVE_JOBNO none) ++
              [some job],
            maxlength := max s.joblist.maxlength
              (s.joblist.contents.length + 1) } := by
        rw [hadd]
        simp only [pl_add, List.length_set]
        split
        · next hcond =>
            refine ((set_current_fields _ _ ?_).2.1)
            rw [hlen]
            omega
        · split <;> rfl
      refine ⟨s.joblist.contents.length, by omega, ?_, ?_, ?_, ?_, ?_, ?_,
              ?_, ?_, ?_⟩
      · exact get_slot_none_of_le _ _ (le_refl _)
      · intro k hk1 hk2
        rw [← hset0 k hk1]
        exact hocc k hk1 hk2
      · right
        refine ⟨rfl, ?_⟩
        rw [hjl]
        simp
      · rw [hjl]
        show get_slot ((s.joblist.contents.set ACTIVE_JOBNO none) ++
          [some job]) s.joblist.contents.length = some job
        have : s.joblist.contents.length =
            (s.joblist.contents.set ACTIVE_JOBNO none).length := by
          rw [List.length_set]
        rw [this]
        exact get_slot_append_self _ _
      · rw [hjl]
        show get_slot _ ACTIVE_JOBNO = none
        rw [get_slot_append_ne _ _ _ (by rw [List.length_set]; simp [ACTIVE_JOBNO]; omega)]
        rw [get_slot_set_none]
        simp [ACTIVE_JOBNO]
      · intro k hk0 hki
        rw [hjl]
        show get_slot ((s.joblist.contents.set ACTIVE_JOBNO none) ++
          [some job]) k = _
        rw [get_slot_append_ne _ _ _ (by rw [List.length_set]; exact hki)]
        exact hset0 k (by simp [ACTIVE_JOBNO] at hk0; omega)
      · intro hcond
        have hcond2 : (cur = true) ∨ s.current_jobnumber = 0 := hcond
        rw [hadd]
        simp only [pl_add, List.length_set]
        rw [if_pos (by simpa using hcond2)]
        rw [(set_current_fields _ _ (by rw [hlen]; omega)).1]
        rw [hlen]
        omega
      · rintro ⟨hcur, hc0, hp0⟩
        rw [hadd]
        simp only [pl_add, List.length_set]
        rw [if_neg (by simp [hcur, hc0]), if_pos hp0]
        constructor
        · rfl
        · show ((s.joblist.contents.set ACTIVE_JOBNO none) ++
            [some job]).length - 1 = s.joblist.contents.length
          rw [hlen]
          omega
      · rintro ⟨hcur, hc0, hp0⟩
        rw [hadd]
        simp only [pl_add, List.length_set]
        rw [if_neg (by simp [hcur, hc0]), if_neg hp0]
        exact ⟨rfl, rfl⟩

/- ## Preservation of the designation invariant -/

theorem remove_job_inv (n : Nat) (s : JobState) (h : DesignationInv s) :
    DesignationInv (remove_job n s) := by
  obtain ⟨h1, h2, h3⟩ := h
  have hslot := get_slot_remove_job s n
  by_cases hc : n = s.current_jobnumber
  · have heq : remove_job n s =
        { s with
          joblist := trim_joblist
            { s.joblist with
              contents := s.joblist.contents.set n none },
          current_jobnumber := s.previous_jobnumber,
          previous_jobnumber :=
            find_next_job
              (trim_joblist
                { s.joblist with
                  contents := s.joblist.contents.set n none }).contents
              s.previous_jobnumber } := by
      simp only [remove_job]
      rw [if_pos hc]
    have hfn := find_next_job_zero_or_live
      (remove_job n s).joblist.contents s.previous_jobnumber
    refine ⟨?_, ?_, ?_⟩
    · intro hne
      have hcur : (remove_job n s).current_jobnumber = s.previous_jobnumber := by
        rw [heq]
      rw [hcur] at hne ⊢
      rw [hslot s.previous_jobnumber]
      have hnp : n ≠ s.previous_jobnumber := by
        intro hnp
        have : s.current_jobnumber = s.previous_jobnumber := by omega
        have := h3 this
        omega
      rw [if_neg (fun hk => hnp hk.symm)]
      exact h2 hne
    · intro hne
      have hprev : (remove_job n s).previous_jobnumber =
          find_next_job (remove_job n s).joblist.contents
            s.previous_jobnumber := by
        rw [heq]
      rcases hfn with h0 | hl
      · rw [hprev] at hne
        exact absurd h0 hne
      · rw [hprev]
        exact hl.2.2
    · intro heq2
      have hcur : (remove_job n s).current_jobnumber = s.previous_jobnumber := by
        rw [heq]
      have hprev : (remove_job n s).previous_jobnumber =
          find_next_job (remove_job n s).joblist.contents
            s.previous_jobnumber := by
        rw [heq]
      rw [hcur]
      rcases hfn with h0 | hl
      · rw [hcur, hprev, h0] at heq2
        exact heq2
      · rw [hcur, hprev] at heq2
        exact absurd heq2.symm hl.2.1
  · by_cases hp : n = s.previous_jobnumber
    · have heq : remove_job n s =
          { s with
            joblist := trim_joblist
              { s.joblist with
                contents := s.joblist.contents.set n none },
            previous_jobnumber :=
              find_next_job
                (trim_joblist
                  { s.joblist with
                    contents := s.joblist.contents.set n none }).contents
                s.current_jobnumber } := by
        simp only [remove_job]
        rw [if_neg hc, if_pos hp]
      have hfn := find_next_job_zero_or_live
        (remove_job n s).joblist.contents s.current_jobnumber
      have hcur : (remove_job n s).current_jobnumber = s.current_jobnumber := by
        rw [heq]
      have hprev : (remove_job n s).previous_jobnumber =
          find_next_job (remove_job n s).joblist.contents
            s.current_jobnumber := by
        rw [heq]
      refine ⟨?_, ?_, ?_⟩
      · intro hne
        rw [hcur] at hne ⊢
        rw [hslot s.current_jobnumber, if_neg (fun hk => hc hk.symm)]
        exact h1 hne
      · intro hne
        rw [hprev] at hne ⊢
        rcases hfn with h0 | hl
        · exact absurd h0 hne
        · exact hl.2.2
      · intro heq2
        rw [hcur, hprev] at heq2
        rw [hcur]
        rcases hfn with h0 | hl
        · rw [h0] at heq2
          exact heq2
        · exact absurd heq2.symm hl.2.1
    · have heq : remove_job n s =
          { s with
            joblist := trim_joblist
              { s.joblist with
                contents := s.joblist.contents.set n none } } := by
        simp only [remove_job]
        rw [if_neg hc, if_neg hp]
      have hcur : (remove_job n s).current_jobnumber = s.current_jobnumber := by
        rw [heq]
      have hprev : (remove_job n s).previous_jobnumber =
          s.previous_jobnumber := by
        rw [heq]
      refine ⟨?_, ?_, ?_⟩
      · intro hne
        rw [hcur] at hne ⊢
        rw [hslot s.current_jobnumber, if_neg (fun hk => hc hk.symm)]
        exact h1 hne
      · intro hne
        rw [hprev] at hne ⊢
        rw [hslot s.previous_jobnumber, if_neg (fun hk => hp hk.symm)]
        exact h2 hne
      · intro heq2
        rw [hcur, hprev] at heq2
        rw [hcur]
        exact h3 heq2

/-- The designation-update tail of `add_job`, applied to the state `s2`
that already holds the promoted job at slot `i`, preserves the
designation invariant. -/
theorem designation_branches_inv (i : Nat) (s2 s : JobState) (cur : Bool)
    (hi0 : i ≠ 0)
    (hlivei : get_slot s2.joblist.contents i ≠ none)
    (hcur : s2.current_jobnumber = s.current_jobnumber)
    (hprev : s2.previous_jobnumber = s.previous_jobnumber)
    (hlivecur : s.current_jobnumber ≠ 0 →
       get_slot s2.joblist.contents s.current_jobnumber ≠ none)
    (hliveprev : s.previous_jobnumber ≠ 0 →
       get_slot s2.joblist.contents s.previous_jobnumber ≠ none)
    (hcurne : s.current_jobnumber ≠ 0 → s.current_jobnumber ≠ i)
    (h3 : s.current_jobnumber = s.previous_jobnumber →
       s.current_jobnumber = 0) :
    DesignationInv
      (if cur = true ∨ s.current_jobnumber = 0 then
         set_current_jobnumber i s2
       else if s.previous_jobnumber = 0 then
         { s2 with previous_jobnumber := i }
       else s2) := by
  split
  · exact set_current_inv i s2 hi0 hlivei (by rw [hcur]; exact hlivecur)
  · next hcond =>
      have hc0 : s.current_jobnumber ≠ 0 := by
        intro hk
        exact hcond (Or.inr hk)
      split
      · next hp0 =>
          refine ⟨?_, ?_, ?_⟩
          · intro _
            show get_slot s2.joblist.contents s2.current_jobnumber ≠ none
            rw [hcur]
            exact hlivecur hc0
          · intro _
            exact hlivei
          · intro heq
            simp only [hcur] at heq
            exact absurd heq (hcurne hc0)
      · next hp0 =>
          refine ⟨?_, ?_, ?_⟩
          · intro _
            rw [hcur]
            exact hlivecur hc0
          · intro hne
            rw [hprev] at hne ⊢
            exact hliveprev hne
          · intro heq
            rw [hcur, hprev] at heq
            rw [hcur]
            exact h3 heq

theorem add_job_inv (cur : Bool) (s : JobState) (h : DesignationInv s) :
    DesignationInv (add_job cur s) := by
  obtain ⟨h1, h2, h3⟩ := h
  cases h0 : get_slot s.joblist.contents ACTIVE_JOBNO with
  | none =>
      have heq : add_job cur s = s := by
        simp [add_job, h0]
      rw [heq]
      exact ⟨h1, h2, h3⟩
  | some job =>
      have hlen0 : 0 < s.joblist.contents.length := get_slot_some_lt _ _ _ h0
      have hset0 : ∀ k, 1 ≤ k →
          get_slot (s.joblist.contents.set ACTIVE_JOBNO none) k =
            get_slot s.joblist.contents k := by
        intro k hk
        exact get_slot_set_ne _ _ _ _ (by simp [ACTIVE_JOBNO]; omega)
      cases hfe : first_empty_slot (s.joblist.contents.set ACTIVE_JOBNO none)
        with
      | some i =>
          obtain ⟨hi1, hi2, hi3, _⟩ := first_empty_slot_some _ i hfe
          rw [List.length_set] at hi2
          have hemp : get_slot s.joblist.contents i = none := by
            rw [← hset0 i hi1]
            exact hi3
          have heq : add_job cur s =
              (let s2 : JobState :=
                 { s with joblist :=
                     { s.joblist with
                       contents := (s.joblist.contents.set ACTIVE_JOBNO
                         none).set i (some job) } }
               if cur = true ∨ s.current_jobnumber = 0 then
                 set_current_jobnumber i s2
               else if s.previous_jobnumber = 0 then
                 { s2 with previous_jobnumber := i }
               else s2) := by
            simp only [add_job, h0, hfe]
          rw [heq]
          have hkeep : ∀ k, 1 ≤ k → k ≠ i →
              get_slot ((s.joblist.contents.set ACTIVE_JOBNO none).set i
                (some job)) k = get_slot s.joblist.contents k := by
            intro k hk hki
            rw [get_slot_set_ne _ _ _ _ hki]
            exact hset0 k hk
          refine designation_branches_inv i _ s cur (by omega) ?_ rfl rfl
            ?_ ?_ ?_ h3
          · show get_slot ((s.joblist.contents.set ACTIVE_JOBNO none).set i
              (some job)) i ≠ none
            rw [get_slot_set_self _ _ _ (by rw [List.length_set]; exact hi2)]
            exact fun hk => Option.noConfusion hk
          · intro hne
            have hni : s.current_jobnumber ≠ i := by
              intro hk
              exact (h1 hne) (hk ▸ hemp)
            show get_slot _ s.current_jobnumber ≠ none
            rw [hkeep _ (by omega) hni]
            exact h1 hne
          · intro hne
            have hni : s.previous_jobnumber ≠ i := by
              intro hk
              exact (h2 hne) (hk ▸ hemp)
            show get_slot _ s.previous_jobnumber ≠ none
            rw [hkeep _ (by omega) hni]
            exact h2 hne
          · intro hne hk
            exact (h1 hne) (hk ▸ hemp)
      | none =>
          have heq : add_job cur s =
              (let jl2 : plist_T :=
                 pl_add ⟨s.joblist.contents.set ACTIVE_JOBNO none,
                         s.joblist.maxlength⟩ (some job)
               let s2 : JobState := { s with joblist := jl2 }
               let i := s2.joblist.contents.length - 1
               if cur = true ∨ s.current_jobnumber = 0 then
                 set_current_jobnumber i s2
               else if s.previous_jobnumber = 0 then
                 { s2 with previous_jobnumber := i }
               else s2) := by
            simp only [add_job, h0, hfe]
          rw [heq]
          simp only [pl_add]
          have hi2 : ((s.joblist.contents.set ACTIVE_JOBNO none) ++
              [some job]).length - 1 = s.joblist.contents.length := by
            simp
          rw [hi2]
          have hsetlen : (s.joblist.contents.set ACTIVE_JOBNO none).length =
              s.joblist.contents.length := List.length_set _ _ _
          have hkeep : ∀ k, 1 ≤ k → k < s.joblist.contents.length →
              get_slot ((s.joblist.contents.set ACTIVE_JOBNO none) ++
                [some job]) k = get_slot s.joblist.contents k := by
            intro k hk hklt
            rw [get_slot_append_ne _ _ _ (by omega)]
            exact hset0 k hk
          refine designation_branches_inv s.joblist.contents.length _ s cur
            (by omega) ?_ rfl rfl ?_ ?_ ?_ h3
          · show get_slot ((s.joblist.contents.set ACTIVE_JOBNO none) ++
              [some job]) s.joblist.contents.length ≠ none
            rw [← hsetlen, get_slot_append_self]
            exact fun hk => Option.noConfusion hk
          · intro hne
            have hlt : s.current_jobnumber < s.joblist.contents.length :=
              get_slot_ne_none_lt _ _ (h1 hne)
            show get_slot _ s.current_jobnumber ≠ none
            rw [hkeep _ (by omega) hlt]
            exact h1 hne
          · intro hne
            have hlt : s.previous_jobnumber < s.joblist.contents.length :=
              get_slot_ne_none_lt _ _ (h2 hne)
            show get_slot _ s.previous_jobnumber ≠ none
            rw [hkeep _ (by omega) hlt]
            exact h2 hne
          · intro hne
            have hlt : s.current_jobnumber < s.joblist.contents.length :=
              get_slot_ne_none_lt _ _ (h1 hne)
            omega

theorem set_active_job_inv (job : job_T) (s : JobState)
    (h : DesignationInv s) : DesignationInv (set_active_job job s) := by
  obtain ⟨h1, h2, h3⟩ := h
  refine ⟨?_, ?_, h3⟩
  · intro hne
    have hne2 : s.current_jobnumber ≠ 0 := hne
    show get_slot (s.joblist.contents.set ACTIVE_JOBNO (some job))
      s.current_jobnumber ≠ none
    rw [get_slot_set_ne _ _ _ _ (by simp [ACTIVE_JOBNO]; omega)]
    exact h1 hne2
  · intro hne
    have hne2 : s.previous_jobnumber ≠ 0 := hne
    show get_slot (s.joblist.contents.set ACTIVE_JOBNO (some job))
      s.previous_jobnumber ≠ none
    rw [get_slot_set_ne _ _ _ _ (by simp [ACTIVE_JOBNO]; omega)]
    exact h2 hne2

theorem do_wait_inv (evs : List (Int × Int)) (s : JobState)
    (h : DesignationInv s) : DesignationInv (do_wait evs s) := by
  obtain ⟨h1, h2, h3⟩ := h
  obtain ⟨hc, hp⟩ := do_wait_designations evs s
  refine ⟨?_, ?_, ?_⟩
  · intro hne
    rw [hc] at hne ⊢
    cases hs : get_slot s.joblist.contents s.current_jobnumber with
    | none => exact absurd hs (h1 hne)
    | some job =>
        obtain ⟨job2, hj2, _, _⟩ := do_wait_flow evs s _ job hs
        rw [hj2]
        exact fun hk => Option.noConfusion hk
  · intro hne
    rw [hp] at hne ⊢
    cases hs : get_slot s.joblist.contents s.previous_jobnumber with
    | none => exact absurd hs (h2 hne)
    | some job =>
        obtain ⟨job2, hj2, _, _⟩ := do_wait_flow evs s _ job hs
        rw [hj2]
        exact fun hk => Option.noConfusion hk
  · intro heq
    rw [hc, hp] at heq
    rw [hc]
    exact h3 heq

theorem remove_all_inv (s : JobState) :
    DesignationInv (remove_all_jobs s) := by
  refine ⟨?_, ?_, ?_⟩
  · intro hne
    exact absurd rfl hne
  · intro hne
    exact absurd rfl hne
  · intro _
    rfl

theorem print_one_inv (n : Nat) (co v px : Bool) (sig : Int → String)
    (s s2 : JobState) (out : List String)
    (hp : print_job_status_one n co v px sig s = some (s2, out))
    (h : DesignationInv s) : DesignationInv s2 := by
  obtain ⟨h1, h2, h3⟩ := h
  cases hg : get_job s n with
  | none =>
      simp only [print_job_status_one, hg] at hp
      cases hp
      exact ⟨h1, h2, h3⟩
  | some job =>
      simp only [print_job_status_one, hg] at hp
      split at hp
      · cases hp
        exact ⟨h1, h2, h3⟩
      · cases hl : job_status_lines n v px sig s job with
        | none =>
            rw [hl] at hp
            exact Option.noConfusion hp
        | some out0 =>
            rw [hl] at hp
            simp only [] at hp
            have hmid : DesignationInv
                { s with joblist :=
                    { s.joblist with
                      contents := s.joblist.contents.set n
                        (some { job with j_statuschanged := false }) } } := by
              have hlt : n < s.joblist.contents.length :=
                get_slot_some_lt _ _ _ hg
              refine ⟨?_, ?_, h3⟩
              · intro hne
                show get_slot (s.joblist.contents.set n _)
                  s.current_jobnumber ≠ none
                by_cases hkn : s.current_jobnumber = n
                · rw [hkn, get_slot_set_self _ _ _ hlt]
                  exact fun hk => Option.noConfusion hk
                · rw [get_slot_set_ne _ _ _ _ hkn]
                  exact h1 hne
              · intro hne
                show get_slot (s.joblist.contents.set n _)
                  s.previous_jobnumber ≠ none
                by_cases hkn : s.previous_jobnumber = n
                · rw [hkn, get_slot_set_self _ _ _ hlt]
                  exact fun hk => Option.noConfusion hk
                · rw [get_slot_set_ne _ _ _ _ hkn]
                  exact h2 hne
            split at hp
            · cases hp
              exact remove_job_inv n _ hmid
            · cases hp
              exact hmid

theorem print_all_loop_inv (co v px : Bool) (sig : Int → String) :
    ∀ fuel i s s2 out,
      print_all_loop co v px sig fuel i s = some (s2, out) →
      DesignationInv s → DesignationInv s2 := by
  intro fuel
  induction fuel with
  | zero =>
      intro i s s2 out hp h
      simp only [print_all_loop] at hp
      cases hp
      exact h
  | succ fuel ih =>
      intro i s s2 out hp h
      simp only [print_all_loop] at hp
      split at hp
      · cases h1 : print_job_status_one i co v px sig s with
        | none =>
            rw [h1] at hp
            exact Option.noConfusion hp
        | some r =>
            obtain ⟨s1, out1⟩ := r
            rw [h1] at hp
            simp only [] at hp
            cases h2 : print_all_loop co v px sig fuel (i + 1) s1 with
            | none =>
                rw [h2] at hp
                exact Option.noConfusion hp
            | some r2 =>
                obtain ⟨s2b, out2⟩ := r2
                rw [h2] at hp
                simp only [Option.map] at hp
                cases hp
                exact (ih (i + 1) s1 s2 out2 h2
                  (print_one_inv i co v px sig s s1 out1 h1 h))
      · cases hp
        exact h

theorem print_job_status_inv (n : Nat) (co v px : Bool)
    (sig : Int → String) (s s2 : JobState) (out : List String)
    (hp : print_job_status n co v px sig s = some (s2, out))
    (h : DesignationInv s) : DesignationInv s2 := by
  simp only [print_job_status] at hp
  split at hp
  · exact print_all_loop_inv co v px sig _ _ s s2 out hp h
  · exact print_one_inv n co v px sig s s2 out hp h

theorem init_job_boot_inv : DesignationInv (init_job boot_state) :=
  ⟨fun hh => absurd rfl hh, fun hh => absurd rfl hh, fun _ => rfl⟩

/-- Every reachable state satisfies the designation invariant. -/
theorem reachable_designation_inv (s : JobState)
    (hr : ReachableJobState s) : DesignationInv s := by
  induction hr with
  | init => exact init_job_boot_inv
  | step s s2 hr hs ih =>
      cases hs with
      | install_active job h => exact set_active_job_inv job s ih
      | promote current h => exact add_job_inv current s ih
      | remove n h => exact remove_job_inv n s ih
      | remove_all => exact remove_all_inv s
      | wait evs => exact do_wait_inv evs s ih
      | print n co v px sig s2c outp hpr =>
          exact print_job_status_inv n co v px sig s s2 outp hpr ih

/- ## Further helper lemmas for the stated properties -/

theorem remove_job_joblist (n : Nat) (s : JobState) :
    (remove_job n s).joblist =
      trim_joblist
        { s.joblist with contents := s.joblist.contents.set n none } := by
  simp only [remove_job]
  split
  · rfl
  · split <;> rfl

theorem slot_test_false_cases (p : job_T → Bool) (o : Option job_T)
    (h : slot_test p o = false) :
    o = none ∨ ∃ job, o = some job ∧ p job = false := by
  cases o with
  | none => exact Or.inl rfl
  | some job => exact Or.inr ⟨job, rfl, h⟩

theorem slot_test_const_true_false (o : Option job_T)
    (h : slot_test (fun _ => true) o = false) : o = none := by
  cases o with
  | none => rfl
  | some job => simp [slot_test] at h

/-- The aggregate state is `JS_DONE` exactly when every process is done. -/
theorem job_status_done_iff (ps : List process_T) :
    job_status_of_procs ps = JS_DONE ↔ ∀ p ∈ ps, p.pr_status = JS_DONE := by
  unfold job_status_of_procs
  split
  · next hrun =>
      constructor
      · intro h
        exact absurd h (by simp)
      · intro hall
        obtain ⟨p, hp, hps⟩ := List.any_eq_true.mp hrun
        rw [hall p hp] at hps
        simp at hps
  · next hrun =>
      split
      · next hstop =>
          constructor
          · intro h
            exact absurd h (by simp)
          · intro hall
            obtain ⟨p, hp, hps⟩ := List.any_eq_true.mp hstop
            rw [hall p hp] at hps
            simp at hps
      · next hstop =>
          constructor
          · intro _ p hp
            cases hps : p.pr_status with
            | JS_RUNNING =>
                exact absurd (List.any_eq_true.mpr ⟨p, hp, by simp [hps]⟩)
                  hrun
            | JS_STOPPED =>
                exact absurd (List.any_eq_true.mpr ⟨p, hp, by simp [hps]⟩)
                  hstop
            | JS_DONE => rfl
          · intro _
            rfl

/-- `find?` on the reversed list yields the last element satisfying the
test. -/
theorem reverse_find_last (P : process_T → Bool) (l : List process_T)
    (i : Nat) (a : process_T) (h : l.get? i = some a) (ha : P a = true)
    (hafter : ∀ k b, i < k → l.get? k = some b → P b = false) :
    l.reverse.find? P = some a := by
  induction l using List.reverseRecOn generalizing i with
  | nil => simp at h
  | append_singleton l b ih =>
      rw [List.reverse_append]
      simp only [List.reverse_singleton, List.singleton_append]
      have hlen : i < l.length + 1 := by
        have := List.get?_eq_some.mp h
        simpa using this.1
      cases hb : P b with
      | true =>
          rw [List.find?_cons_of_pos _ hb]
          by_cases hi : i < l.length
          · have hgb : (l ++ [b]).get? l.length = some b :=
              List.get?_concat_length l b
            exact absurd hb (by rw [hafter l.length b hi hgb]; simp)
          · have hieq : i = l.length := by omega
            rw [hieq, List.get?_concat_length] at h
            cases h
            rfl
      | false =>
          rw [List.find?_cons_of_neg _ (by simp [hb])]
          by_cases hi : i < l.length
          · refine ih i ?_ ?_
            · rw [← List.get?_append hi]
              exact h
            · intro k c hk hkc
              exact hafter k c hk
                (by rw [List.get?_append (List.get?_eq_some.mp hkc).1]
                    exact hkc)
          · have hieq : i = l.length := by omega
            rw [hieq, List.get?_concat_length] at h
            cases h
            rw [ha] at hb
            exact Bool.noConfusion hb

/- # The claims -/

/-- C10: `init_job` is idempotent: the first call creates the job table
holding exactly the reserved empty slot 0, with both designation
registers 0; every further call changes nothing at all. -/
theorem init_job_spec :
    (init_job boot_state).joblist.contents = [none] ∧
    (init_job boot_state).joblist.contents.length = 1 ∧
    (init_job boot_state).current_jobnumber = 0 ∧
    (init_job boot_state).previous_jobnumber = 0 ∧
    (∀ s : JobState, init_job (init_job s) = init_job s) := by
  refine ⟨rfl, rfl, rfl, rfl, ?_⟩
  intro s
  by_cases h : s.initialized
  · simp [init_job, h]
  · simp [init_job, h]

/-- C9: the job table's capacity shrinks exactly when the capacity
exceeds 20 and the length is under half the capacity, and it then
compacts to the live tail; in the concrete run, with capacity 44 and
jobs 1..21, removing the tail-most job twice drops the capacity from 44
to 20 — about half — at the removal where the 20/2 policy first
triggers. -/
theorem trim_joblist_spec :
    (∀ p : plist_T,
       ((trim_joblist p).maxlength < p.maxlength ↔
          20 < p.maxlength ∧ p.contents.length < p.maxlength / 2) ∧
       (20 < p.maxlength ∧ p.contents.length < p.maxlength / 2 →
          (trim_joblist p).maxlength = max 1 (live_tail p.contents)) ∧
       (trim_joblist p).contents =
         p.contents.take (max 1 (live_tail p.contents))) ∧
    demo_state44.joblist.maxlength = 44 ∧
    (remove_job 21 demo_state44).joblist.maxlength = 44 ∧
    (remove_job 20 (remove_job 21 demo_state44)).joblist.maxlength = 20 := by
  constructor
  · intro p
    have hlt := live_tail_le p.contents
    have hml := trim_maxlength p
    refine ⟨?_, ?_, trim_contents p⟩
    · constructor
      · intro hless
        by_contra hcond
        rw [hml, if_neg hcond] at hless
        omega
      · intro hcond
        rw [hml, if_pos hcond]
        omega
    · intro hcond
      rw [hml, if_pos hcond]
  · exact ⟨rfl, by decide, by decide⟩

/-- C7: the per-process status strings.  The first five conjuncts record
the documented texts; the last two exhibit the core-dump defect: for the
status word 134 (signal 6 with the core-dump flag set) the code prints
"Killed (SIGABRT)" without "core dumped", because `job.c:445` overwrites
`status` with `WTERMSIG(status)` before `WCOREDUMP(status)` is tested,
so the core-dump test reads the signal number, never the raw word. -/
theorem get_process_status_string_spec :
    get_process_status_string demo_signame
        (mk_proc 7 JS_RUNNING 0 "x") = some ("Running", false) ∧
    get_process_status_string demo_signame
        (mk_proc 7 JS_STOPPED (mkStopped 20) "x") =
      some ("Stopped(SIGTSTP)", true) ∧
    get_process_status_string demo_signame (mk_proc 0 JS_DONE 0 "x") =
      some ("Done", false) ∧
    get_process_status_string demo_signame (mk_proc 0 JS_DONE 3 "x") =
      some ("Done(3)", true) ∧
    get_process_status_string demo_signame
        (mk_proc 7 JS_DONE (mkExited 2) "x") = some ("Done(2)", true) ∧
    WCOREDUMP (mkSignaled 6 true) = true ∧
    get_process_status_string demo_signame
        (mk_proc 7 JS_DONE (mkSignaled 6 true) "x") =
      some ("Killed (SIGABRT)", true) := by
  decide

/-- C1: after a `do_wait` drain, every live job's cached aggregate state
equals the value recomputed from its processes by the precedence rule
(provided that held before, as installation guarantees), the changed
flag is set whenever the drain changed a job's aggregate state, and a
job's aggregate state is done exactly when all its processes are done. -/
theorem do_wait_spec (s : JobState) (evs : List (Int × Int))
    (h : ConsistentJobs s) :
    ConsistentJobs (do_wait evs s) ∧
    (∀ n job, get_job s n = some job →
       ∃ job2, get_job (do_wait evs s) n = some job2 ∧
         (job2.j_status ≠ job.j_status → job2.j_statuschanged = true)) ∧
    (∀ ps : List process_T,
       job_status_of_procs ps = JS_DONE ↔
         ∀ p ∈ ps, p.pr_status = JS_DONE) := by
  refine ⟨do_wait_consistent evs s h, ?_, job_status_done_iff⟩
  intro n job hj
  obtain ⟨job2, h1, h2, _⟩ := do_wait_flow evs s n job hj
  exact ⟨job2, h1, h2⟩

theorem do_wait_spec_witness :
    ConsistentJobs (do_wait [(100, mkExited 0)] demo_state1) := by
  have hcons : ConsistentJobs demo_state1 := by
    intro n job hj
    have hlt : n < 2 := get_slot_some_lt _ _ _ hj
    interval_cases n
    · exact Option.noConfusion hj
    · have hje : demo_job = job := Option.some.inj hj
      subst hje
      decide
  exact (do_wait_spec demo_state1 [(100, mkExited 0)] hcons).1

/-- C2: in every state reachable through the exposed operations, a
non-zero current register names a live job, a non-zero previous register
names a live job, and the two registers differ unless both are zero (in
particular whenever more than one numbered job is live). -/
theorem reachable_designations_spec (s : JobState)
    (hr : ReachableJobState s) :
    (s.current_jobnumber ≠ 0 → get_job s s.current_jobnumber ≠ none) ∧
    (s.previous_jobnumber ≠ 0 → get_job s s.previous_jobnumber ≠ none) ∧
    (s.current_jobnumber = s.previous_jobnumber →
       (s.current_jobnumber = 0 ∧ s.previous_jobnumber = 0) ∨
       numbered_job_count s ≤ 1) := by
  obtain ⟨h1, h2, h3⟩ := reachable_designation_inv s hr
  refine ⟨h1, h2, ?_⟩
  intro heq
  have := h3 heq
  exact Or.inl ⟨this, by omega⟩

theorem reachable_designations_spec_witness :
    ((init_job boot_state).current_jobnumber ≠ 0 →
       get_job (init_job boot_state)
         (init_job boot_state).current_jobnumber ≠ none) ∧
    ((init_job boot_state).previous_jobnumber ≠ 0 →
       get_job (init_job boot_state)
         (init_job boot_state).previous_jobnumber ≠ none) ∧
    ((init_job boot_state).current_jobnumber =
        (init_job boot_state).previous_jobnumber →
       ((init_job boot_state).current_jobnumber = 0 ∧
        (init_job boot_state).previous_jobnumber = 0) ∨
       numbered_job_count (init_job boot_state) ≤ 1) :=
  reachable_designations_spec (init_job boot_state) ReachableJobState.init

/-- C3: `add_job` moves the job in slot 0 to the lowest index ≥ 1 whose
slot reads empty — appending a new slot exactly when no empty one exists,
and in particular using index 1 on an empty table — and then a true
current-hint or an unset current register makes that index the current
job, an unset previous register receives it otherwise, and otherwise
both designations are unchanged. -/
theorem add_job_spec (cur : Bool) (s : JobState) (job : job_T)
    (h0 : get_job s ACTIVE_JOBNO = some job) :
    ∃ i, 1 ≤ i ∧
      get_job s i = none ∧
      (∀ k, 1 ≤ k → k < i → get_job s k ≠ none) ∧
      ((i < s.joblist.contents.length ∧
          (add_job cur s).joblist.contents.length =
            s.joblist.contents.length) ∨
       (i = s.joblist.contents.length ∧
          (add_job cur s).joblist.contents.length = i + 1)) ∧
      get_job (add_job cur s) i = some job ∧
      get_job (add_job cur s) ACTIVE_JOBNO = none ∧
      (∀ k, k ≠ ACTIVE_JOBNO → k ≠ i →
         get_job (add_job cur s) k = get_job s k) ∧
      ((cur = true ∨ s.current_jobnumber = 0) →
         (add_job cur s).current_jobnumber = i) ∧
      ((cur = false ∧ s.current_jobnumber ≠ 0 ∧
          s.previous_jobnumber = 0) →
         (add_job cur s).current_jobnumber = s.current_jobnumber ∧
         (add_job cur s).previous_jobnumber = i) ∧
      ((cur = false ∧ s.current_jobnumber ≠ 0 ∧
          s.previous_jobnumber ≠ 0) →
         (add_job cur s).current_jobnumber = s.current_jobnumber ∧
         (add_job cur s).previous_jobnumber = s.previous_jobnumber) ∧
      (s.joblist.contents.length = 1 → i = 1) := by
  obtain ⟨i, a1, a2, a3, a4, a5, a6, a7, a8, a9, a10⟩ :=
    add_job_cases cur s job h0
  refine ⟨i, a1, a2, a3, a4, a5, a6, a7, a8, a9, a10, ?_⟩
  intro hl1
  rcases a4 with ⟨hlt, _⟩ | ⟨heq, _⟩
  · omega
  · omega

theorem add_job_spec_witness :
    get_job (add_job true demo_active_state) 1 = some demo_job ∧
    (add_job true demo_active_state).current_jobnumber = 1 := by
  obtain ⟨i, a1, a2, a3, a4, a5, a6, a7, a8, a9, a10, a11⟩ :=
    add_job_spec true demo_active_state demo_job rfl
  have hi : i = 1 := a11 rfl
  subst hi
  exact ⟨a5, a8 (Or.inl rfl)⟩

/-- C4: `remove_job` of a live job number empties the slot, leaves every
other slot unchanged and trims the trailing empties; when the removed
number was current, the previous job becomes current and the previous
register is recomputed by `find_next_job` from the new current; when it
was previous only, the previous register is recomputed from the current;
otherwise the designations are unchanged. -/
theorem remove_job_spec (s : JobState) (n : Nat) (h1 : 1 ≤ n)
    (h2 : get_job s n ≠ none) :
    get_job (remove_job n s) n = none ∧
    (∀ k, k ≠ n → get_job (remove_job n s) k = get_job s k) ∧
    ((remove_job n s).joblist.contents.length = 1 ∨
       get_job (remove_job n s)
         ((remove_job n s).joblist.contents.length - 1) ≠ none) ∧
    (n = s.current_jobnumber →
       (remove_job n s).current_jobnumber = s.previous_jobnumber ∧
       (remove_job n s).previous_jobnumber =
         find_next_job (remove_job n s).joblist.contents
           (remove_job n s).current_jobnumber) ∧
    (n ≠ s.current_jobnumber → n = s.previous_jobnumber →
       (remove_job n s).current_jobnumber = s.current_jobnumber ∧
       (remove_job n s).previous_jobnumber =
         find_next_job (remove_job n s).joblist.contents
           s.current_jobnumber) ∧
    (n ≠ s.current_jobnumber → n ≠ s.previous_jobnumber →
       (remove_job n s).current_jobnumber = s.current_jobnumber ∧
       (remove_job n s).previous_jobnumber = s.previous_jobnumber) := by
  have hlen : n < s.joblist.contents.length := get_slot_ne_none_lt _ _ h2
  have hslot := get_slot_remove_job s n
  refine ⟨?_, ?_, ?_, ?_, ?_, ?_⟩
  · rw [show get_job (remove_job n s) n =
        get_slot (remove_job n s).joblist.contents n from rfl, hslot n,
        if_pos rfl]
  · intro k hk
    show get_slot (remove_job n s).joblist.contents k = get_job s k
    rw [hslot k, if_neg hk]
    rfl
  · have hjl := remove_job_joblist n s
    have htrail := trim_no_trailing_empties
      { s.joblist with contents := s.joblist.contents.set n none }
      (by simp only [List.length_set]; omega)
    rw [← hjl] at htrail
    exact htrail
  · intro hc
    constructor
    · simp only [remove_job]
      rw [if_pos hc]
    · have hcur : (remove_job n s).current_jobnumber =
          s.previous_jobnumber := by
        simp only [remove_job]
        rw [if_pos hc]
      rw [hcur, remove_job_joblist]
      simp only [remove_job]
      rw [if_pos hc]
  · intro hc hp
    constructor
    · simp only [remove_job]
      rw [if_neg hc, if_pos hp]
    · rw [remove_job_joblist]
      simp only [remove_job]
      rw [if_neg hc, if_pos hp]
  · intro hc hp
    constructor
    · simp only [remove_job]
      rw [if_neg hc, if_neg hp]
    · simp only [remove_job]
      rw [if_neg hc, if_neg hp]

theorem remove_job_spec_witness :
    get_job (remove_job 2 demo_state2) 2 = none ∧
    (remove_job 2 demo_state2).current_jobnumber =
      demo_state2.previous_jobnumber ∧
    get_job (remove_job 2 demo_state2) 1 = some demo_job := by
  have h := remove_job_spec demo_state2 2 (by decide)
    (by intro hk; exact Option.noConfusion hk)
  exact ⟨h.1, (h.2.2.2.1 rfl).1, by rw [h.2.1 1 (by decide)]; rfl⟩

theorem slot_stopped_iff_test (l : List (Option job_T)) (k : Nat) :
    slot_test (fun job => decide (job.j_status = JS_STOPPED))
      (get_slot l k) = true ↔ slot_stopped l k := by
  cases hg : get_slot l k with
  | none =>
      simp [slot_test, slot_stopped, hg]
  | some job =>
      simp [slot_test, slot_stopped, hg]

/-- C5: `find_next_job` returns 0 exactly when no live job other than
possibly the excluded one exists; otherwise it returns a live number
different from the excluded one — the highest-numbered stopped candidate
when one exists, and the highest-numbered live candidate otherwise. -/
theorem find_next_job_full_spec (l : List (Option job_T)) (excl : Nat) :
    (find_next_job l excl = 0 ↔
       ∀ k, 1 ≤ k → k ≠ excl → get_slot l k = none) ∧
    (find_next_job l excl ≠ 0 →
       1 ≤ find_next_job l excl ∧ find_next_job l excl ≠ excl ∧
       get_slot l (find_next_job l excl) ≠ none ∧
       ((∃ k, 1 ≤ k ∧ k ≠ excl ∧ slot_stopped l k) →
          slot_stopped l (find_next_job l excl) ∧
          ∀ k, k ≠ excl → slot_stopped l k →
            k ≤ find_next_job l excl) ∧
       ((¬∃ k, 1 ≤ k ∧ k ≠ excl ∧ slot_stopped l k) →
          ∀ k, k ≠ excl → get_slot l k ≠ none →
            k ≤ find_next_job l excl)) := by
  simp only [find_next_job]
  split
  · next hr1 =>
      obtain ⟨b1, b2, b3, b4, b5⟩ :=
        (find_down_spec l excl (fun job => decide (job.j_status = JS_STOPPED))
          (l.length - 1)).2 hr1
      constructor
      · constructor
        · intro h0
          exact absurd h0 hr1
        · intro hall
          exact absurd (hall _ b1 b3) (slot_test_true_ne_none _ _ b4)
      · intro _
        refine ⟨b1, b3, slot_test_true_ne_none _ _ b4, ?_, ?_⟩
        · intro _
          refine ⟨(slot_stopped_iff_test l _).mp b4, ?_⟩
          intro k hke hstop
          by_contra hgt
          push_neg at hgt
          have hklen : k < l.length := by
            obtain ⟨job, hj, _⟩ := hstop
            exact get_slot_some_lt _ _ _ hj
          have hfalse := b5 k hgt (by omega) hke
          rw [(slot_stopped_iff_test l k).mpr hstop] at hfalse
          exact Bool.noConfusion hfalse
        · intro hno k hke hlive
          exact absurd ⟨_, b1, b3, (slot_stopped_iff_test l _).mp b4⟩ hno
  · next hr1 =>
      have hr10 : find_down l excl
          (fun job => decide (job.j_status = JS_STOPPED))
          (l.length - 1) = 0 := by
        by_contra hk
        exact hr1 hk
      have hnostop : ∀ k, 1 ≤ k → k ≠ excl → ¬slot_stopped l k := by
        intro k hk hke hstop
        have hklen : k < l.length := by
          obtain ⟨job, hj, _⟩ := hstop
          exact get_slot_some_lt _ _ _ hj
        have hfalse := (find_down_spec l excl
          (fun job => decide (job.j_status = JS_STOPPED))
          (l.length - 1)).1 hr10 k hk (by omega) hke
        rw [(slot_stopped_iff_test l k).mpr hstop] at hfalse
        exact Bool.noConfusion hfalse
      by_cases hr2 : find_down l excl (fun _ => true) (l.length - 1) = 0
      · rw [hr2]
        constructor
        · constructor
          · intro _ k hk hke
            by_cases hklen : k < l.length
            · exact slot_test_const_true_false _
                ((find_down_spec l excl (fun _ => true)
                  (l.length - 1)).1 hr2 k hk (by omega) hke)
            · exact get_slot_none_of_le l k (by omega)
          · intro _
            rfl
        · intro h0
          exact absurd rfl h0
      · obtain ⟨c1, c2, c3, c4, c5⟩ :=
          (find_down_spec l excl (fun _ => true) (l.length - 1)).2 hr2
        constructor
        · constructor
          · intro h0
            exact absurd h0 hr2
          · intro hall
            exact absurd (hall _ c1 c3) (slot_test_true_ne_none _ _ c4)
        · intro _
          refine ⟨c1, c3, slot_test_true_ne_none _ _ c4, ?_, ?_⟩
          · intro hex
            obtain ⟨k, hk1, hke, hstop⟩ := hex
            exact (hnostop k hk1 hke hstop).elim
          · intro _ k hke hlive
            by_contra hgt
            push_neg at hgt
            have hklen : k < l.length := get_slot_ne_none_lt _ _ hlive
            have hfalse := c5 k hgt (by omega) hke
            exact hlive (slot_test_const_true_false _ hfalse)

/-- C6: for a done job, `calc_status_of_job` returns the tail process's
raw status word itself when the tail pid is 0 and its decoding
otherwise — normal exit to the exit code, termination or stop by a
signal to the signal number plus `TERMSIGOFFSET`, continuation to 0 —
and for a stopped job it returns the decoded status of the tail-most
stopped process. -/
theorem calc_status_of_job_spec (job : job_T) (tp : process_T)
    (hlast : job.j_procs.getLast? = some tp) :
    (job.j_status = JS_DONE → tp.pr_pid = 0 →
       calc_status_of_job job = some tp.pr_statuscode) ∧
    (job.j_status = JS_DONE → tp.pr_pid ≠ 0 →
       calc_status_of_job job = calc_status tp.pr_statuscode) ∧
    (∀ c : Int, 0 ≤ c → c < 256 → calc_status (mkExited c) = some c) ∧
    (∀ g : Int, 1 ≤ g → g ≤ 126 → ∀ core : Bool,
       calc_status (mkSignaled g core) = some (g + TERMSIGOFFSET)) ∧
    (∀ g : Int, 0 ≤ g → g < 256 →
       calc_status (mkStopped g) = some (g + TERMSIGOFFSET)) ∧
    calc_status mkContinued = some 0 ∧
    (job.j_status = JS_STOPPED →
       ∀ i p, job.j_procs.get? i = some p → p.pr_status = JS_STOPPED →
         (∀ k q, i < k → job.j_procs.get? k = some q →
            q.pr_status ≠ JS_STOPPED) →
         calc_status_of_job job = calc_status p.pr_statuscode) := by
  refine ⟨?_, ?_, ?_, ?_, ?_, ?_, ?_⟩
  · intro hst hpid
    simp [calc_status_of_job, hst, hlast, hpid]
  · intro hst hpid
    simp [calc_status_of_job, hst, hlast, hpid]
  · intro c hc1 hc2
    have he : WIFEXITED (mkExited c) = true := by
      simp only [WIFEXITED, mkExited, decide_eq_true_eq]
      omega
    simp only [calc_status, he, if_true]
    have : WEXITSTATUS (mkExited c) = c := by
      simp only [WEXITSTATUS, mkExited]
      omega
    rw [this]
  · intro g hg1 hg2 core
    have hs : mkSignaled g core = g + (if core then 128 else 0) := rfl
    have hval : mkSignaled g core % 128 = g := by
      cases core <;> simp [mkSignaled] <;> omega
    have he : WIFEXITED (mkSignaled g core) = false := by
      simp only [WIFEXITED, decide_eq_false_iff_not]
      omega
    have hsig : WIFSIGNALED (mkSignaled g core) = true := by
      simp only [WIFSIGNALED, decide_eq_true_eq]
      omega
    simp only [calc_status, he, hsig, if_true, if_false, Bool.false_eq_true,
      if_neg]
    have : WTERMSIG (mkSignaled g core) = g := hval
    rw [this]
  · intro g hg1 hg2
    have hmod : mkStopped g % 128 = 127 := by
      simp only [mkStopped]
      omega
    have he : WIFEXITED (mkStopped g) = false := by
      simp only [WIFEXITED, decide_eq_false_iff_not, mkStopped]
      omega
    have hsig : WIFSIGNALED (mkStopped g) = false := by
      simp only [WIFSIGNALED, decide_eq_false_iff_not, mkStopped]
      omega
    have hstp : WIFSTOPPED (mkStopped g) = true := by
      simp only [WIFSTOPPED, decide_eq_true_eq, mkStopped]
      omega
    simp only [calc_status, he, hsig, hstp, Bool.false_eq_true, if_false,
      if_true]
    have : WSTOPSIG (mkStopped g) = g := by
      simp only [WSTOPSIG, mkStopped]
      omega
    rw [this]
  · decide
  · intro hst i p hp hps hafter
    have hfind : job.j_procs.reverse.find?
        (fun q => decide (q.pr_status = JS_STOPPED)) = some p :=
      reverse_find_last _ job.j_procs i p hp (by simp [hps])
        (fun k b hk hkb => by simpa using hafter k b hk hkb)
    simp [calc_status_of_job, hst, hfind]

theorem calc_status_of_job_spec_witness :
    calc_status_of_job demo_killed_job = some 131 := by
  have h := calc_status_of_job_spec demo_killed_job
    (mk_proc 7 JS_DONE (mkSignaled 3 false) "x") rfl
  rw [h.2.1 rfl (by decide)]
  have h4 := h.2.2.2.1 3 (by norm_num) (by norm_num) false
  rw [show (mk_proc 7 JS_DONE (mkSignaled 3 false) "x").pr_statuscode =
      mkSignaled 3 false from rfl, h4]
  rfl

/-- C8: for a single job number (not the print-all sentinel),
`print_job_status` prints nothing and changes nothing when the job is
absent or when only changed jobs were requested and the job's changed
flag is clear; otherwise, after printing, the job's changed flag is
clear, and a job whose state was done has been removed, so that a second
call (and `get_job`) finds no job. -/
theorem print_job_status_spec (n : Nat) (co v px : Bool)
    (sig : Int → String) (s : JobState) (hn : n ≠ PJS_ALL) :
    ((get_job s n = none ∨
        ∃ job, get_job s n = some job ∧ co = true ∧
          job.j_statuschanged = false) →
       print_job_status n co v px sig s = some (s, [])) ∧
    (∀ job s2 out, get_job s n = some job →
       ¬(co = true ∧ job.j_statuschanged = false) →
       print_job_status n co v px sig s = some (s2, out) →
       ((job.j_status ≠ JS_DONE →
           get_job s2 n = some { job with j_statuschanged := false }) ∧
        (job.j_status = JS_DONE →
           get_job s2 n = none ∧
           print_job_status n co v px sig s2 = some (s2, [])))) := by
  have hone : print_job_status n co v px sig s =
      print_job_status_one n co v px sig s := by
    simp only [print_job_status]
    rw [if_neg hn]
  constructor
  · intro hskip
    rw [hone]
    rcases hskip with hnone | ⟨job, hjob, hco, hchg⟩
    · simp [print_job_status_one, hnone]
    · simp only [print_job_status_one, hjob]
      rw [if_pos (by simp [hco, hchg])]
  · intro job s2 out hjob hnoskip hp
    rw [hone] at hp
    simp only [print_job_status_one, hjob] at hp
    rw [if_neg (by
      intro hk
      obtain ⟨hk1, hk2⟩ := hk
      exact hnoskip ⟨hk1, by simpa using hk2⟩)] at hp
    cases hl : job_status_lines n v px sig s job with
    | none =>
        rw [hl] at hp
        exact Option.noConfusion hp
    | some out0 =>
        rw [hl] at hp
        simp only [] at hp
        have hlen : n < s.joblist.contents.length :=
          get_slot_some_lt _ _ _ hjob
        constructor
        · intro hnotdone
          rw [if_neg hnotdone] at hp
          cases hp
          show get_slot (s.joblist.contents.set n
            (some { job with j_statuschanged := false })) n = _
          rw [get_slot_set_self _ _ _ hlen]
        · intro hdone
          rw [if_pos hdone] at hp
          cases hp
          have hget : get_job (remove_job n
              { s with joblist :=
                  { s.joblist with
                    contents := s.joblist.contents.set n
                      (some { job with j_statuschanged := false }) } }) n =
              none := by
            show get_slot _ n = none
            rw [get_slot_remove_job, if_pos rfl]
          refine ⟨hget, ?_⟩
          simp only [print_job_status]
          rw [if_neg hn]
          simp [print_job_status_one, hget]

theorem print_job_status_spec_witness :
    get_job demo_after_print 1 = none ∧
    print_job_status 1 false false false demo_signame demo_after_print =
      some (demo_after_print, []) := by
  have h := (print_job_status_spec 1 false false false demo_signame
    demo_done_state (by decide)).2 demo_done_job demo_after_print
    ["[1] + Done                 cmd"] rfl (by simp) (by decide)
  exact h.2 rfl
